import Mathlib

/-!
# kvcache: wire codec and request processing

A shallow embedding of `redis.go` and of the request/response code of `server.go`,
followed by theorems about the decoder, the command interpreter, the reply encoder,
the processor's reply mapping, and the step models of the processor loop and of the
three tasks of one connection.

Conventions of the embedding.

* A Go `string` is a list of bytes (`Bytes`); a Go `[]byte` that may be `nil` is an
  `Option Bytes` (`none` is `nil`, `some []` is the empty non-nil slice).
* `*bufio.Reader` over the connection is the unread remainder of the byte stream plus
  the error that the transport reports once the stream is exhausted.  Every reading
  function returns its result together with the reader state it leaves behind.
* Go's `int` is the 64-bit signed integer; `strconv.Atoi` range-checks against it.
* Library behaviour that the source relies on but which is not spelled out here
  (upper-casing of non-ASCII text, the `%q` verb, the text of the storage errors)
  is a parameter (`Env`), so every theorem holds for each possible behaviour.
* The metrics calls (`s.statsd.*`) and logging have no effect on requests or replies
  and are left out.
-/

namespace KVCache

abbrev Byte := UInt8
abbrev Bytes := List Byte

/-- UTF-8 bytes of a string literal. -/
def B (s : String) : Bytes := s.data.flatMap String.utf8EncodeChar

/-! ## Errors -/

/-- The error a read on the connection reports once no byte is left: the end of the
stream (`io.EOF`) or a transport failure, which implements `net.Error`. -/
inductive TransportErr where
  | eof
  | net (msg : Bytes)
  deriving DecidableEq, Repr

/-- The `error` values that occur in the program. -/
inductive GoError where
  /-- `io.EOF` -/
  | EOF
  /-- `io.ErrUnexpectedEOF` -/
  | ErrUnexpectedEOF
  /-- an error of the transport; it implements `net.Error` -/
  | netError (msg : Bytes)
  /-- `bufio.ErrInvalidUnreadByte` -/
  | ErrInvalidUnreadByte
  /-- `fmt.Errorf("Expected %q; got %q", expected, b)` -/
  | expected (exp got : Bytes)
  /-- `fmt.Errorf("Bad number: %q", line)` -/
  | badNumber (line : Bytes)
  | ErrRedisBadBulkStringCount
  | ErrRedisBadStringLen
  | ErrMalformedRequest
  | ErrUnrecognizedCommand
  | ErrWrongNumArgs
  | ErrSetXXUnupported
  | ErrSetNXRequired
  /-- `fmt.Errorf("expiry parameter %s provided without a value", param)` -/
  | expiryWithoutValue (param : Bytes)
  /-- the storage engine's `ErrKeyExist` -/
  | ErrKeyExist
  /-- the storage engine's `ErrKeyNotExist` -/
  | ErrKeyNotExist
  /-- a storage error of type `FatalDBError` -/
  | FatalDBError (msg : Bytes)
  /-- any other storage error -/
  | dbOther (msg : Bytes)
  deriving DecidableEq, Repr

/-- Library and collaborator behaviour taken as given. -/
structure Env where
  /-- `strings.Map(unicode.ToUpper, s)`, the path `strings.ToUpper` takes when `s` has a
  byte outside ASCII -/
  upperNonASCII : Bytes → Bytes
  /-- the `%q` verb of `fmt` -/
  quote : Bytes → Bytes
  /-- `ErrKeyExist.Error()` -/
  keyExistText : Bytes
  /-- `ErrKeyNotExist.Error()` -/
  keyNotExistText : Bytes

/-- The method `Error()`: the text of an error. -/
def GoError.Error (E : Env) : GoError → Bytes
  | .EOF => B "EOF"
  | .ErrUnexpectedEOF => B "unexpected EOF"
  | .netError msg => msg
  | .ErrInvalidUnreadByte => B "bufio: invalid use of UnreadByte"
  | .expected exp got => B "Expected " ++ E.quote exp ++ B "; got " ++ E.quote got
  | .badNumber line => B "Bad number: " ++ E.quote line
  | .ErrRedisBadBulkStringCount => B "client sent an unreasonable bulk string count"
  | .ErrRedisBadStringLen => B "client sent an unreasonably string size"
  | .ErrMalformedRequest => B "malformed request"
  | .ErrUnrecognizedCommand => B "unrecognized command"
  | .ErrWrongNumArgs => B "wrong number of arguments for command"
  | .ErrSetXXUnupported => B "the XX option to SET is not supported"
  | .ErrSetNXRequired => B "the NX option to SET is required"
  | .expiryWithoutValue param => B "expiry parameter " ++ param ++ B " provided without a value"
  | .ErrKeyExist => E.keyExistText
  | .ErrKeyNotExist => E.keyNotExistText
  | .FatalDBError msg => msg
  | .dbOther msg => msg

/-- The type assertion `err.(net.Error)`. -/
def GoError.isNetError : GoError → Bool
  | .netError _ => true
  | _ => false

/-! ## The reader -/

/-- A `*bufio.Reader` over the connection. -/
structure Reader where
  /-- the bytes not yet consumed -/
  unread : Bytes
  /-- what a read reports once `unread` is exhausted -/
  fin : TransportErr
  deriving DecidableEq, Repr

/-- The error of a read that found no byte at all. -/
def TransportErr.atStart : TransportErr → GoError
  | .eof => .EOF
  | .net msg => .netError msg

/-- The error `io.ReadFull` reports after it read some bytes but not all. -/
def TransportErr.midway : TransportErr → GoError
  | .eof => .ErrUnexpectedEOF
  | .net msg => .netError msg

/-- `io.ReadFull(br, b)` with `len(b) = n`: exactly `n` bytes, or an error after all
that was left has been consumed (`io.EOF` if nothing was left, `io.ErrUnexpectedEOF`
if the stream ended midway, the transport's error otherwise). -/
def ReadFull (br : Reader) (n : Nat) : Except GoError Bytes × Reader :=
  if n ≤ br.unread.length then
    (.ok (br.unread.take n), { br with unread := br.unread.drop n })
  else
    (.error (if br.unread = [] then br.fin.atStart else br.fin.midway),
      { br with unread := [] })

/-- `br.ReadBytes(delim)`: the bytes up to and including the first `delim`; when the
stream ends before a `delim`, the bytes read so far and the error. -/
def ReadBytes (br : Reader) (delim : Byte) : (Bytes × Option GoError) × Reader :=
  match br.unread.span (fun b => b != delim) with
  | (line, []) => ((line, some br.fin.atStart), { br with unread := [] })
  | (line, d :: rest) => ((line ++ [d], none), { br with unread := rest })

/-- `br.UnreadByte()` right after a read that returned `line`: the last byte read is
put back; with nothing read there is no byte to put back. -/
def UnreadByte (br : Reader) (line : Bytes) : Option GoError × Reader :=
  match line.getLast? with
  | none => (some .ErrInvalidUnreadByte, br)
  | some b => (none, { br with unread := b :: br.unread })

/-! ## strconv -/

def maxInt : Int := 9223372036854775807
def minInt : Int := -9223372036854775808

def isDigit (c : Byte) : Bool := 48 ≤ c && c ≤ 57

/-- The digit loop of `strconv.Atoi`: the value of a run of decimal digits, `none` at
the first byte that is not a digit. -/
def parseDigits : Bytes → Nat → Option Nat
  | [], acc => some acc
  | c :: cs, acc => if isDigit c then parseDigits cs (acc * 10 + (c.toNat - 48)) else none

/-- `strconv.Atoi`: an optional sign, then one or more decimal digits, the value within
the range of `int`; `none` stands for its syntax and range errors. -/
def Atoi (s : Bytes) : Option Int :=
  let neg := s.head? = some 45
  let ds := if s.head? = some 45 ∨ s.head? = some 43 then s.tail else s
  if ds = [] then none
  else
    match parseDigits ds 0 with
    | none => none
    | some n =>
      let v : Int := if neg then -(n : Int) else (n : Int)
      if minInt ≤ v ∧ v ≤ maxInt then some v else none

/-- Digits of `n`, most significant first, in front of `acc`. -/
def formatDigits : Nat → Nat → Bytes → Bytes
  | 0, _, acc => acc
  | fuel + 1, n, acc =>
    let acc := UInt8.ofNat (48 + n % 10) :: acc
    if n / 10 = 0 then acc else formatDigits fuel (n / 10) acc

/-- `strconv.Itoa`: the canonical decimal text of an integer. -/
def Itoa (i : Int) : Bytes :=
  if i < 0 then 45 :: formatDigits (i.natAbs + 1) i.natAbs []
  else formatDigits (i.natAbs + 1) i.natAbs []

/-! ## redis.go -/

def redisMaxBulkStrings : Int := 10000000
def redisMaxStringLen : Int := 1000000

def expectString (br : Reader) (expected : Bytes) : Option GoError × Reader :=
  match ReadFull br expected.length with
  | (.error err, br) => (some err, br)
  | (.ok b, br) =>
    if b ≠ expected then (some (.expected expected b), br) else (none, br)

def expectCRLF (br : Reader) : Option GoError × Reader := expectString br (B "\r\n")

def expectDecimal (br : Reader) : Except GoError Int × Reader :=
  match ReadBytes br 13 with
  | ((_, some err), br) => (.error err, br)
  | ((line, none), br) =>
    match UnreadByte br line with
    | (some err, br) => (.error err, br)
    | (none, br) =>
      let line := line.dropLast
      match Atoi line with
      | none => (.error (.badNumber line), br)
      | some n => (.ok n, br)

/-- The `for i := 0; i < count; i++` loop of `parseRedisArrayBulkString`; the first
argument is the number of iterations still to run. -/
def parseRedisArrayBulkString.loop :
    Nat → List Bytes → Reader → Except GoError (List Bytes) × Reader
  | 0, results, br => (.ok results, br)
  | n + 1, results, br =>
    match expectString br (B "$") with
    | (some err, br) => (.error err, br)
    | (none, br) =>
      match expectDecimal br with
      | (.error err, br) => (.error err, br)
      | (.ok size, br) =>
        match expectCRLF br with
        | (some err, br) => (.error err, br)
        | (none, br) =>
          if size < 0 ∨ size > redisMaxStringLen then (.error .ErrRedisBadStringLen, br)
          else
            match ReadFull br size.toNat with
            | (.error err, br) => (.error err, br)
            | (.ok b, br) =>
              match expectCRLF br with
              | (some err, br) => (.error err, br)
              | (none, br) => parseRedisArrayBulkString.loop n (results ++ [b]) br

def parseRedisArrayBulkString (br : Reader) : Except GoError (List Bytes) × Reader :=
  match expectString br (B "*") with
  | (some err, br) => (.error err, br)
  | (none, br) =>
    match expectDecimal br with
    | (.error err, br) => (.error err, br)
    | (.ok count, br) =>
      match expectCRLF br with
      | (some err, br) => (.error err, br)
      | (none, br) =>
        if count < 0 ∨ count > redisMaxBulkStrings then
          (.error .ErrRedisBadBulkStringCount, br)
        else parseRedisArrayBulkString.loop count.toNat [] br

/-! ## server.go: requests and responses -/

abbrev RequestType := UInt8

def RequestSet : RequestType := 1
def RequestGet : RequestType := 2
def RequestPing : RequestType := 3
def RequestInfo : RequestType := 4

abbrev RedisType := UInt8

def RedisErr : RedisType := 1
def RedisString : RedisType := 2
def RedisBulk : RedisType := 3

/-- The struct `Request`; the default values are Go's zero values.  `Resp`, a channel
in the source, is never assigned. -/
structure Request where
  Typ : RequestType := 0
  Key : Option Bytes := none
  Val : Option Bytes := none
  Resp : Option Unit := none
  Err : Option GoError := none
  deriving DecidableEq, Repr

/-- The struct `Response`. -/
structure Response where
  Typ : RedisType := 0
  Msg : Option Bytes := none
  deriving DecidableEq, Repr

/-- `strings.ToUpper`: on ASCII-only text the letters `a`..`z` are moved to `A`..`Z`
and every other byte is kept; other text goes through the Unicode mapping. -/
def ToUpper (E : Env) (s : Bytes) : Bytes :=
  if s.all (fun c => c < 128) then s.map (fun c => if 97 ≤ c ∧ c ≤ 122 then c - 32 else c)
  else E.upperNonASCII s

/-- The option loop `for i := 3; i < len(array); i++` of `Request.Parse`, run over the
elements from index `i` on; `nx` is the flag so far.  It returns the final flag, or the
error with which `Parse` returns from inside the loop. -/
def Request.Parse.options (E : Env) : List Bytes → Bool → Except GoError Bool
  | [], nx => .ok nx
  | p :: rest, nx =>
    let param := ToUpper E p
    if param = B "EX" ∨ param = B "PX" then
      match rest with
      | [] => .error (.expiryWithoutValue param)
      | _ :: rest => Request.Parse.options E rest nx
    else if param = B "XX" then .error .ErrSetXXUnupported
    else if param = B "NX" then Request.Parse.options E rest true
    else Request.Parse.options E rest nx

/-- The part of `Request.Parse` that follows the decoding: what it makes of the
decoded `array`.  The request as it is left behind, and the error returned. -/
def Request.Parse.interpret (E : Env) (r : Request) (array : List Bytes) :
    Request × Option GoError :=
  if array.length = 0 then (r, some .ErrMalformedRequest)
  else
    let cmd := ToUpper E (array.getD 0 [])
    if cmd = B "SET" then
      if array.length < 3 then (r, some .ErrWrongNumArgs)
      else
        let r := { r with Typ := RequestSet, Key := some (array.getD 1 []),
                          Val := some (array.getD 2 []) }
        match Request.Parse.options E (array.drop 3) false with
        | .error err => (r, some err)
        | .ok nx => if !nx then (r, some .ErrSetNXRequired) else (r, none)
    else if cmd = B "GET" then
      if array.length ≠ 2 then (r, some .ErrWrongNumArgs)
      else ({ r with Typ := RequestGet, Key := some (array.getD 1 []) }, none)
    else if cmd = B "PING" then
      if array.length ≠ 1 then (r, some .ErrWrongNumArgs)
      else ({ r with Typ := RequestPing }, none)
    else if cmd = B "INFO" then
      if array.length ≠ 1 then (r, some .ErrWrongNumArgs)
      else ({ r with Typ := RequestInfo }, none)
    else (r, some .ErrUnrecognizedCommand)

/-- The method `(r *Request) Parse(br)`: the request as it is left behind, the error
returned, and the reader. -/
def Request.Parse (E : Env) (r : Request) (br : Reader) : (Request × Option GoError) × Reader :=
  match parseRedisArrayBulkString br with
  | (.error err, br) => ((r, some err), br)
  | (.ok array, br) => (Request.Parse.interpret E r array, br)

/-- The connection as an `io.Writer`: the bytes written so far and, when the transport
is broken, the error each write reports. -/
structure Writer where
  written : Bytes
  broken : Option GoError
  deriving DecidableEq, Repr

/-- `w.Write(msg)`. -/
def Writer.Write (w : Writer) (msg : Bytes) : Option GoError × Writer :=
  match w.broken with
  | some err => (some err, w)
  | none => (none, { w with written := w.written ++ msg })

/-- The frame `Response.Write` builds before it writes; `none` is the
`panic("unexpected response type")`. -/
def Response.Write.msg (r : Response) : Option Bytes :=
  if r.Typ = RedisErr then some (B "-" ++ r.Msg.getD [] ++ B "\r\n")
  else if r.Typ = RedisString then some (B "+" ++ r.Msg.getD [] ++ B "\r\n")
  else if r.Typ = RedisBulk then
    match r.Msg with
    | none => some (B "$-1\r\n")
    | some m => some ([36] ++ Itoa m.length ++ B "\r\n" ++ m ++ B "\r\n")
  else none

/-- The method `(r *Response) Write(w)`: `none` when it panics, else the error of the
write and the writer. -/
def Response.Write (r : Response) (w : Writer) : Option (Option GoError × Writer) :=
  match Response.Write.msg r with
  | none => none
  | some msg => some (w.Write msg)

def ResponseFromError (E : Env) (err : GoError) : Response :=
  { Typ := RedisErr, Msg := some (err.Error E) }

/-! ## server.go: the connection tasks -/

/-- The storage engine `s.db`, with `σ` its state.  `Put` and `Get` return the error
(`none` for `nil`); `Get` also returns the value, a `[]byte`; `Info` is
`s.db.Info().String()`. -/
structure Storage (σ : Type) where
  Put : σ → Option Bytes → Option Bytes → Option GoError × σ
  Get : σ → Option Bytes → (Option Bytes × Option GoError) × σ
  Info : σ → Bytes

/-- How the processing of one request ends. -/
inductive Outcome where
  /-- `resp` is appended to the response queue -/
  | reply (resp : Response)
  /-- the fatal storage error path: `s.Stop()` and `os.Exit(1)` -/
  | exit
  /-- `panic("unexpected request type")` -/
  | panic
  deriving DecidableEq, Repr

/-- The body of `case r := <-requests:` in `HandleConn` up to the append: the outcome
for request `r` and the storage state afterwards. -/
def HandleConn.respond {σ : Type} (E : Env) (S : Storage σ) (db : σ) (r : Request) :
    Outcome × σ :=
  let resp : Response := { Typ := RedisString }
  match r.Err with
  | some err => (.reply { resp with Msg := some (err.Error E), Typ := RedisErr }, db)
  | none =>
    if r.Typ = RequestSet then
      match S.Put db r.Key r.Val with
      | (none, db) => (.reply { resp with Msg := some (B "OK") }, db)
      | (some err, db) =>
        if err = .ErrKeyExist then (.reply { resp with Typ := RedisBulk }, db)
        else
          match err with
          | .FatalDBError _ => (.exit, db)
          | _ => (.reply (ResponseFromError E err), db)
    else if r.Typ = RequestGet then
      match S.Get db r.Key with
      | ((v, none), db) => (.reply { resp with Typ := RedisBulk, Msg := v }, db)
      | ((_, some err), db) =>
        if err = .ErrKeyNotExist then (.reply { resp with Typ := RedisBulk }, db)
        else (.reply (ResponseFromError E err), db)
    else if r.Typ = RequestPing then (.reply { resp with Msg := some (B "PONG") }, db)
    else if r.Typ = RequestInfo then (.reply { resp with Msg := some (S.Info db) }, db)
    else (.panic, db)

/-- The state of the processor loop of `HandleConn`: the storage and `responseQueue`. -/
structure Processor (σ : Type) where
  db : σ
  responseQueue : List Response

/-- The `case r := <-requests:` branch of the processor loop: the response for `r` is
appended to the queue; `none` when the process exits or panics instead. -/
def HandleConn.onRequest {σ : Type} (E : Env) (S : Storage σ) (p : Processor σ)
    (r : Request) : Option (Processor σ) :=
  match HandleConn.respond E S p.db r with
  | (.reply resp, db) => some { db := db, responseQueue := p.responseQueue ++ [resp] }
  | (_, _) => none

/-- One turn of the loop of `readRequests`: a fresh `Request` is parsed; on an error
that is a `net.Error` the task closes `readErr` and returns (`none`); otherwise the
request, with `Err` set if parsing failed, is sent to the processor. -/
def readRequests.turn (E : Env) (br : Reader) : Option Request × Reader :=
  match Request.Parse E {} br with
  | ((r, some err), br) =>
    if err.isNetError then (none, br) else (some { r with Err := some err }, br)
  | ((r, none), br) => (some r, br)

/-- One request through the three tasks in turn: the reader decodes it, the processor
answers it, the writer encodes the reply.  The result is the reader, the storage and
the writer afterwards; `none` when the reader stops or the processor or the writer
does not produce a reply. -/
def serveOne {σ : Type} (E : Env) (S : Storage σ) (br : Reader) (db : σ) (w : Writer) :
    Option (Reader × σ × Writer) :=
  match readRequests.turn E br with
  | (none, _) => none
  | (some r, br) =>
    match HandleConn.respond E S db r with
    | (.reply resp, db) =>
      match resp.Write w with
      | some (none, w) => some (br, db, w)
      | _ => none
    | (_, _) => none

/-- An environment to evaluate examples in: text outside ASCII is left as it is by the
upper-casing, `%q` puts its argument between double quotes. -/
def sampleEnv : Env :=
  { upperNonASCII := fun s => s
    quote := fun s => [34] ++ s ++ [34]
    keyExistText := B "key already exists"
    keyNotExistText := B "key does not exist" }

/-! ## The option scan, as the claims describe it -/

/-- An expiry token: `EX` or `PX`, in any letter case. -/
def isExpiry (E : Env) (p : Bytes) : Prop := ToUpper E p = B "EX" ∨ ToUpper E p = B "PX"

instance (E : Env) (p : Bytes) : Decidable (isExpiry E p) := by
  unfold isExpiry
  exact inferInstance

/-- The tokens that the left-to-right scan of the options looks at: every token except
those that directly follow a scanned `EX` or `PX`, which are passed over as the expiry
value. -/
def scanned (E : Env) : List Bytes → List Bytes
  | [] => []
  | [p] => [p]
  | p :: q :: rest =>
    if isExpiry E p then p :: scanned E rest else p :: scanned E (q :: rest)

/-- Whether the scan ends on an `EX` or `PX` that no token follows. -/
def dangling (E : Env) : List Bytes → Bool
  | [] => false
  | [p] => decide (isExpiry E p)
  | p :: q :: rest => if isExpiry E p then dangling E rest else dangling E (q :: rest)

/-- Modelled from the spec: the storage engine, whose code is not part of these files,
as the put-if-absent map of its contract.  `Put` of an absent key stores the value and
returns no error, `Put` of a present key returns `ErrKeyExist` and changes nothing; `Get`
of a present key returns the stored value, `Get` of an absent key returns
`ErrKeyNotExist`.  The state is the list of stored pairs, newest first. -/
def memStorage : Storage (List (Bytes × Bytes)) where
  Put := fun db k v =>
    match db.lookup (k.getD []) with
    | some _ => (some .ErrKeyExist, db)
    | none => (none, (k.getD [], v.getD []) :: db)
  Get := fun db k =>
    match db.lookup (k.getD []) with
    | some v => ((some v, none), db)
    | none => ((none, some .ErrKeyNotExist), db)
  Info := fun db => B "keys:" ++ Itoa db.length

/-! ## The wire format, as the protocol states it -/

/-- One element of a request on the wire: `$<len>\r\n<bytes>\r\n`, the length in
canonical decimal. -/
def wireElement (s : Bytes) : Bytes :=
  B "$" ++ Itoa s.length ++ B "\r\n" ++ s ++ B "\r\n"

/-- A request on the wire: `*<N>\r\n` and then the `N` elements. -/
def wireFrame (ss : List Bytes) : Bytes :=
  B "*" ++ Itoa ss.length ++ B "\r\n" ++ ss.flatMap wireElement

/-- A storage engine that behaves as put-if-absent, in the words of the end-to-end
scenario: `view db key` is what the engine holds under `key` in state `db`.  `Put` of an
absent key stores the value and returns no error; `Put` of a present key returns
`ErrKeyExist` and keeps what is stored; `Get` of a present key returns the stored value,
not nil, and no error; `Get` of an absent key returns `ErrKeyNotExist`. -/
structure PutIfAbsent {σ : Type} (S : Storage σ) (view : σ → Bytes → Option Bytes) : Prop where
  put_absent : ∀ db key val, view db key = none →
    ∃ db', S.Put db (some key) (some val) = (none, db') ∧ view db' key = some val
  put_present : ∀ db key val old, view db key = some old →
    ∃ db', S.Put db (some key) (some val) = (some .ErrKeyExist, db') ∧ view db' key = some old
  get_present : ∀ db key val, view db key = some val →
    ∃ db', S.Get db (some key) = ((some val, none), db') ∧ view db' key = some val
  get_absent : ∀ db key, view db key = none →
    ∃ v db', S.Get db (some key) = ((v, some .ErrKeyNotExist), db')

/-- The frame of `SET k v NX`. -/
def setFrame (k v : Bytes) : Bytes := wireFrame [B "SET", k, v, B "NX"]

/-- The frame of `GET k`. -/
def getFrame (k : Bytes) : Bytes := wireFrame [B "GET", k]

/-- The frame of `PING`. -/
def pingFrame : Bytes := wireFrame [B "PING"]

/-! ## server.go: the processor loop as a state machine -/

/-- The function `when`: the channel when `pred` holds, the nil channel otherwise. -/
def when {α : Type} (ch : Option α) (pred : Bool) : Option α :=
  if pred then ch else none

/-- The function `head`: the first response of the queue, nil when there is none. -/
def head (q : List Response) : Option Response :=
  if q.length = 0 then none else q.head?

/-- The branch `case when(responses, len(responseQueue) > 0) <- head(responseQueue)` of
the processor loop: with a non-empty queue the head is sent to the writer and the
queue becomes `responseQueue[1:]`; a send on the nil channel never happens (`none`). -/
def HandleConn.onAccept {σ : Type} (p : Processor σ) : Option (Response × Processor σ) :=
  match when (some ()) (decide (p.responseQueue.length > 0)), head p.responseQueue with
  | some _, some resp => some (resp, { p with responseQueue := p.responseQueue.drop 1 })
  | _, _ => none

/-- The two kinds of step of the processor loop. -/
inductive ProcEvent where
  /-- a request arrives: `case r := <-requests` -/
  | request (r : Request)
  /-- the writer accepts the head of the queue -/
  | accept
  deriving DecidableEq, Repr

/-- The processor together with its history: the requests received so far and the
responses handed to the writer so far, both in order. -/
structure ProcState (σ : Type) where
  proc : Processor σ
  arrived : List Request
  handed : List Response

/-- One step of the processor loop; `none` when the step is not enabled (an accept on
an empty queue) or the process exits or panics. -/
def HandleConn.step {σ : Type} (E : Env) (S : Storage σ) (s : ProcState σ) :
    ProcEvent → Option (ProcState σ)
  | .request r =>
    match HandleConn.onRequest E S s.proc r with
    | some p => some { s with proc := p, arrived := s.arrived ++ [r] }
    | none => none
  | .accept =>
    match HandleConn.onAccept s.proc with
    | some (resp, p) => some { s with proc := p, handed := s.handed ++ [resp] }
    | none => none

/-- A run of the processor loop: the steps taken one after the other. -/
def HandleConn.run {σ : Type} (E : Env) (S : Storage σ) :
    List ProcEvent → ProcState σ → Option (ProcState σ)
  | [], s => some s
  | ev :: evs, s =>
    match HandleConn.step E S s ev with
    | some s' => HandleConn.run E S evs s'
    | none => none

/-- The processor at the start of `HandleConn`: nothing received, nothing queued. -/
def HandleConn.start {σ : Type} (db : σ) : ProcState σ :=
  { proc := { db := db, responseQueue := [] }, arrived := [], handed := [] }

/-- The responses computed for the requests `rs` taken in order, starting from storage
`db`, with the storage they leave; `none` when one of them ends the process. -/
def repliesInOrder {σ : Type} (E : Env) (S : Storage σ) (db : σ) (rs : List Request) :
    Option (List Response × σ) :=
  rs.foldl
    (fun acc r =>
      match acc with
      | none => none
      | some (out, db) =>
        match HandleConn.respond E S db r with
        | (.reply resp, db') => some (out ++ [resp], db')
        | (_, _) => none)
    (some ([], db))

/-- The requests among the events of a run, in order. -/
def requestsOf : List ProcEvent → List Request
  | [] => []
  | .request r :: evs => r :: requestsOf evs
  | .accept :: evs => requestsOf evs

/-- The order invariant of the processor loop: the responses handed to the writer
followed by the queue are the responses computed for the requests received, in the order
of their arrival, and the storage is the one they leave. -/
def OrderInv {σ : Type} (E : Env) (S : Storage σ) (db0 : σ) (s : ProcState σ) : Prop :=
  repliesInOrder E S db0 s.arrived = some (s.handed ++ s.proc.responseQueue, s.proc.db)

/-! ## Decimal literals, as the claims describe them -/

/-- The digits of a decimal literal: the text behind an optional leading sign. -/
def literalDigits (d : Bytes) : Bytes :=
  match d with
  | [] => []
  | c :: t => if c = 43 ∨ c = 45 then t else c :: t

/-- A base-10 integer literal: an optional sign `+` or `-`, then one or more of the
digits `0`..`9` and nothing else. -/
def isLiteral (d : Bytes) : Bool :=
  !(literalDigits d).isEmpty && (literalDigits d).all (fun c => decide (48 ≤ c ∧ c ≤ 57))

/-- The value of a base-10 integer literal: its digits read in base ten, negated behind
a `-`. -/
def literalValue (d : Bytes) : Int :=
  let v : Nat := (literalDigits d).foldl (fun a c => 10 * a + (c.toNat - 48)) 0
  if d.head? = some 45 then -(v : Int) else (v : Int)

/-! ## server.go: one connection as a step model of its three tasks -/

/-- Where the reader task `readRequests` stands in its loop. -/
inductive ReaderTask where
  /-- before `r.Parse(br)` -/
  | parsing
  /-- at `requests <- &r`, waiting for the processor to receive -/
  | sending (r : Request)
  /-- at the `select` on `writeErr` that follows the send -/
  | checking
  /-- the task has returned -/
  | returned
  deriving DecidableEq, Repr

/-- Where the writer task `writeResponses` stands in its loop. -/
inductive WriterTask where
  /-- at the `select` on `responses` and `readErr` -/
  | waiting
  /-- before `resp.Write(c)` -/
  | writing (resp : Response)
  /-- the task has returned -/
  | returned
  deriving DecidableEq, Repr

/-- One connection: the three tasks, what they work on, and how often each of the two
signal channels has been closed. -/
structure ConnState (σ : Type) where
  reader : ReaderTask
  br : Reader
  /-- the processor is still in `reqLoop`; otherwise it has left it and closed `c` -/
  looping : Bool
  proc : Processor σ
  writer : WriterTask
  w : Writer
  /-- the number of times `close(readErr)` has run -/
  readErrCloses : Nat
  /-- the number of times `close(writeErr)` has run -/
  writeErrCloses : Nat
  /-- the process has ended by `os.Exit` or a panic -/
  halted : Bool

/-- The steps of one connection. -/
inductive ConnEvent where
  /-- the reader parses a request and branches on the error -/
  | parse
  /-- the reader's send meets the processor's `case r := <-requests` -/
  | handoff
  /-- the reader's `select` on `writeErr` -/
  | check
  /-- the processor's send of the queue head meets the writer's receive -/
  | deliver
  /-- the writer runs `resp.Write(c)` and branches on the error -/
  | write
  /-- the writer's `case <-readErr` -/
  | writerSeesReadErr
  /-- the processor's `case <-readErr` -/
  | procSeesReadErr
  /-- the processor's `case <-writeErr` -/
  | procSeesWriteErr
  /-- the surroundings: what the connection yields to reads and whether writes fail
  changes (bytes arrive, the peer goes away, the connection is closed) -/
  | transport (br : Reader) (broken : Option GoError)
  deriving DecidableEq, Repr

/-- `HandleConn` right after it has started its two tasks. -/
def HandleConn.init {σ : Type} (br : Reader) (db : σ) (w : Writer) : ConnState σ :=
  { reader := .parsing, br := br, looping := true, proc := { db := db, responseQueue := [] },
    writer := .waiting, w := w, readErrCloses := 0, writeErrCloses := 0, halted := false }

/-- One step of one connection; `none` when the step is not enabled. -/
def ConnState.step {σ : Type} (E : Env) (S : Storage σ) (s : ConnState σ) (ev : ConnEvent) :
    Option (ConnState σ) :=
  if s.halted then none
  else
    match ev with
    | .parse =>
      match s.reader with
      | .parsing =>
        match readRequests.turn E s.br with
        | (none, br) =>
          some { s with reader := .returned, br := br, readErrCloses := s.readErrCloses + 1 }
        | (some r, br) => some { s with reader := .sending r, br := br }
      | _ => none
    | .handoff =>
      match s.reader with
      | .sending r =>
        if s.looping then
          match HandleConn.onRequest E S s.proc r with
          | some p => some { s with reader := .checking, proc := p }
          | none => some { s with halted := true }
        else none
      | _ => none
    | .check =>
      match s.reader with
      | .checking =>
        some { s with reader := if s.writeErrCloses > 0 then .returned else .parsing }
      | _ => none
    | .deliver =>
      match s.writer with
      | .waiting =>
        if s.looping then
          match HandleConn.onAccept s.proc with
          | some (resp, p) => some { s with proc := p, writer := .writing resp }
          | none => none
        else none
      | _ => none
    | .write =>
      match s.writer with
      | .writing resp =>
        match resp.Write s.w with
        | none => some { s with halted := true }
        | some (none, w) => some { s with writer := .waiting, w := w }
        | some (some _, w) =>
          some { s with writer := .returned, w := w, writeErrCloses := s.writeErrCloses + 1 }
      | _ => none
    | .writerSeesReadErr =>
      match s.writer with
      | .waiting => if s.readErrCloses > 0 then some { s with writer := .returned } else none
      | _ => none
    | .procSeesReadErr =>
      if s.looping ∧ s.readErrCloses > 0 then some { s with looping := false } else none
    | .procSeesWriteErr =>
      if s.looping ∧ s.writeErrCloses > 0 then some { s with looping := false } else none
    | .transport br broken => some { s with br := br, w := { s.w with broken := broken } }

/-- A run of one connection: the steps taken one after the other. -/
def ConnState.run {σ : Type} (E : Env) (S : Storage σ) :
    List ConnEvent → ConnState σ → Option (ConnState σ)
  | [], s => some s
  | ev :: evs, s =>
    match ConnState.step E S s ev with
    | some s' => ConnState.run E S evs s'
    | none => none

/-- The invariant of the signals: a signal channel has not been closed, or it has been
closed once and the task that closed it has returned. -/
def SignalInv {σ : Type} (s : ConnState σ) : Prop :=
  (s.readErrCloses = 0 ∨ (s.readErrCloses = 1 ∧ s.reader = .returned)) ∧
  (s.writeErrCloses = 0 ∨ (s.writeErrCloses = 1 ∧ s.writer = .returned))

/-! ## Lemmas: literals -/

theorem B_star : B "*" = [42] := rfl
theorem B_dollar : B "$" = [36] := rfl
theorem B_crlf : B "\r\n" = [13, 10] := rfl

/-! ## Lemmas: the reader -/

theorem ReadFull_append (s rest : Bytes) (f : TransportErr) :
    ReadFull ⟨s ++ rest, f⟩ s.length = (.ok s, ⟨rest, f⟩) := by
  simp [ReadFull]

theorem expectString_append (s rest : Bytes) (f : TransportErr) :
    expectString ⟨s ++ rest, f⟩ s = (none, ⟨rest, f⟩) := by
  simp [expectString, ReadFull_append]

theorem expectCRLF_cons (rest : Bytes) (f : TransportErr) :
    expectCRLF ⟨13 :: 10 :: rest, f⟩ = (none, ⟨rest, f⟩) := by
  have h := expectString_append (B "\r\n") rest f
  simpa [expectCRLF, B_crlf] using h

theorem span_delim (d rest : Bytes) (x : Byte) (h : ∀ c ∈ d, c ≠ x) :
    (d ++ x :: rest).span (fun b => b != x) = (d, x :: rest) := by
  rw [List.span_eq_take_drop]
  induction d with
  | nil => simp [List.takeWhile, List.dropWhile]
  | cons c cs ih =>
    have hc : (c != x) = true := by simpa using h c (by simp)
    have ih := ih (fun c hc => h c (by simp [hc]))
    simp only [Prod.mk.injEq] at ih
    simp only [List.cons_append, List.takeWhile, List.dropWhile, hc]
    exact Prod.ext (congrArg (c :: ·) ih.1) ih.2

theorem ReadBytes_line (d rest : Bytes) (x : Byte) (f : TransportErr)
    (h : ∀ c ∈ d, c ≠ x) :
    ReadBytes ⟨d ++ x :: rest, f⟩ x = ((d ++ [x], none), ⟨rest, f⟩) := by
  simp only [ReadBytes]
  rw [span_delim d rest x h]

/-- On a line that ends at the first `\r`, `expectDecimal` hands the text before it to
`Atoi` and leaves the `\r` unread. -/
theorem expectDecimal_line (d rest : Bytes) (f : TransportErr) (h : ∀ c ∈ d, c ≠ 13) :
    expectDecimal ⟨d ++ 13 :: rest, f⟩ =
      ((match Atoi d with
        | none => .error (.badNumber d)
        | some n => .ok n), ⟨13 :: rest, f⟩) := by
  simp only [expectDecimal, ReadBytes_line d rest 13 f h, UnreadByte]
  simp only [List.getLast?_append, List.getLast?_singleton, List.dropLast_concat]
  cases Atoi d <;> simp

/-! ## Lemmas: decimal text -/

theorem digit_isDigit (m : Nat) (h : m < 10) : isDigit (UInt8.ofNat (48 + m)) = true := by
  interval_cases m <;> rfl

theorem digit_toNat (m : Nat) (h : m < 10) : (UInt8.ofNat (48 + m)).toNat - 48 = m := by
  interval_cases m <;> rfl

theorem isDigit_ne_cr (c : Byte) (h : isDigit c = true) : c ≠ 13 := by
  intro hc
  subst hc
  exact absurd h (by decide)

theorem parseDigits_formatDigits (fuel : Nat) :
    ∀ (n : Nat) (acc : Bytes), n < 10 ^ fuel →
      parseDigits (formatDigits fuel n acc) 0 = parseDigits acc n := by
  induction fuel with
  | zero =>
    intro n acc h
    have : n = 0 := by simpa using h
    subst this
    rfl
  | succ k ih =>
    intro n acc h
    have hm : n % 10 < 10 := Nat.mod_lt _ (by decide)
    unfold formatDigits
    by_cases h0 : n / 10 = 0
    · have hn : n % 10 = n := Nat.mod_eq_of_lt (by omega)
      rw [hn] at hm
      simp [h0, parseDigits, digit_isDigit _ hm, digit_toNat _ hm, hn]
    · have hlt : n / 10 < 10 ^ k := by
        rw [Nat.div_lt_iff_lt_mul (by decide)]
        rw [pow_succ] at h
        exact h
      simp only [h0, if_false]
      rw [ih _ _ hlt]
      simp only [parseDigits, digit_isDigit _ hm, digit_toNat _ hm, if_true]
      congr 1
      omega

theorem formatDigits_head (fuel : Nat) :
    ∀ (n : Nat) (acc : Bytes),
      ∃ c l, formatDigits (fuel + 1) n acc = c :: l ∧ isDigit c = true := by
  induction fuel with
  | zero =>
    intro n acc
    have hm : n % 10 < 10 := Nat.mod_lt _ (by decide)
    refine ⟨UInt8.ofNat (48 + n % 10), acc, ?_, digit_isDigit _ hm⟩
    simp [formatDigits]
  | succ k ih =>
    intro n acc
    have hm : n % 10 < 10 := Nat.mod_lt _ (by decide)
    unfold formatDigits
    by_cases h0 : n / 10 = 0
    · exact ⟨UInt8.ofNat (48 + n % 10), acc, by simp [h0], digit_isDigit _ hm⟩
    · simp only [h0, if_false]
      exact ih _ _

theorem formatDigits_mem (fuel : Nat) :
    ∀ (n : Nat) (acc : Bytes) (c : Byte),
      c ∈ formatDigits fuel n acc → c ∈ acc ∨ isDigit c = true := by
  induction fuel with
  | zero =>
    intro n acc c h
    exact Or.inl h
  | succ k ih =>
    intro n acc c h
    have hm : n % 10 < 10 := Nat.mod_lt _ (by decide)
    unfold formatDigits at h
    by_cases h0 : n / 10 = 0
    · simp only [h0, if_true, List.mem_cons] at h
      rcases h with h | h
      · exact Or.inr (h ▸ digit_isDigit _ hm)
      · exact Or.inl h
    · simp only [h0, if_false] at h
      rcases ih _ _ _ h with h | h
      · rw [List.mem_cons] at h
        rcases h with h | h
        · exact Or.inr (h ▸ digit_isDigit _ hm)
        · exact Or.inl h
      · exact Or.inr h

theorem lt_ten_pow_succ (n : Nat) : n < 10 ^ (n + 1) :=
  lt_trans (Nat.lt_pow_self (by decide) n) (Nat.pow_lt_pow_right (by decide) (Nat.lt_succ_self n))

/-- The text `Itoa` writes has no `\r` in it. -/
theorem Itoa_no_cr (i : Int) : ∀ c ∈ Itoa i, c ≠ 13 := by
  intro c hc
  unfold Itoa at hc
  split at hc
  · rw [List.mem_cons] at hc
    rcases hc with hc | hc
    · rw [hc]; decide
    · rcases formatDigits_mem _ _ _ _ hc with h | h
      · simp at h
      · exact isDigit_ne_cr c h
  · rcases formatDigits_mem _ _ _ _ hc with h | h
    · simp at h
    · exact isDigit_ne_cr c h

/-- What `Atoi` makes of the text `Itoa` writes: the number itself when it is in the
range of `int`, an error when it is not. -/
theorem Atoi_Itoa (i : Int) :
    Atoi (Itoa i) = if minInt ≤ i ∧ i ≤ maxInt then some i else none := by
  obtain ⟨c, l, hcl, hc⟩ := formatDigits_head i.natAbs i.natAbs []
  have hp := parseDigits_formatDigits (i.natAbs + 1) i.natAbs [] (lt_ten_pow_succ _)
  have hc45 : c ≠ 45 := by
    intro h; subst h; exact absurd hc (by decide)
  have hc43 : c ≠ 43 := by
    intro h; subst h; exact absurd hc (by decide)
  unfold Itoa
  by_cases hi : i < 0
  · have hv : -((i.natAbs : Nat) : Int) = i := by omega
    simp only [hi, if_true, Atoi, List.head?_cons, true_or, List.tail_cons, hp, parseDigits]
    rw [hv]
    simp [hcl]
  · have hv : ((i.natAbs : Nat) : Int) = i := by omega
    simp only [hi, if_false, Atoi, hcl, List.head?_cons, Option.some.injEq, hc45, hc43,
      or_self, if_false]
    rw [← hcl, hp]
    simp [parseDigits, hcl, hv]

theorem expectDecimal_Itoa (i : Int) (rest : Bytes) (f : TransportErr)
    (h : minInt ≤ i ∧ i ≤ maxInt) :
    expectDecimal ⟨Itoa i ++ 13 :: rest, f⟩ = (.ok i, ⟨13 :: rest, f⟩) := by
  rw [expectDecimal_line _ _ _ (Itoa_no_cr i), Atoi_Itoa, if_pos h]

/-! ## Lemmas: decoding a well-formed frame -/

theorem int_range_of_le (n : Nat) (h : n ≤ 10000000) :
    minInt ≤ (n : Int) ∧ (n : Int) ≤ maxInt := by
  unfold minInt maxInt
  omega

/-- One turn of the element loop on a well-formed element. -/
theorem loop_wireElement (n : Nat) (acc : List Bytes) (s rest : Bytes) (f : TransportErr)
    (h : s.length ≤ 1000000) :
    parseRedisArrayBulkString.loop (n + 1) acc ⟨wireElement s ++ rest, f⟩ =
      parseRedisArrayBulkString.loop n (acc ++ [s]) ⟨rest, f⟩ := by
  have hr := int_range_of_le s.length (by omega)
  have e : wireElement s ++ rest =
      B "$" ++ (Itoa s.length ++ 13 :: (10 :: (s ++ 13 :: 10 :: rest))) := by
    simp [wireElement, B_crlf]
  have hs : ¬ (((s.length : Nat) : Int) < 0 ∨ ((s.length : Nat) : Int) > redisMaxStringLen) := by
    unfold redisMaxStringLen
    omega
  rw [e, parseRedisArrayBulkString.loop, expectString_append]
  simp only [expectDecimal_Itoa _ _ _ hr, expectCRLF_cons, hs, if_false, Int.toNat_ofNat,
    ReadFull_append]

theorem loop_wireElements (ss : List Bytes) :
    ∀ (m : Nat) (acc : List Bytes) (rest : Bytes) (f : TransportErr),
      (∀ s ∈ ss, s.length ≤ 1000000) →
      parseRedisArrayBulkString.loop (ss.length + m) acc ⟨ss.flatMap wireElement ++ rest, f⟩ =
        parseRedisArrayBulkString.loop m (acc ++ ss) ⟨rest, f⟩ := by
  induction ss with
  | nil =>
    intro m acc rest f _
    simp
  | cons s ss ih =>
    intro m acc rest f h
    have e : (s :: ss).length + m = (ss.length + m) + 1 := by
      simp only [List.length_cons]
      omega
    rw [List.flatMap_cons, List.append_assoc, e,
      loop_wireElement _ _ _ _ _ (h s (by simp)), ih _ _ _ _ (fun t ht => h t (by simp [ht]))]
    simp

theorem expectDecimal_Itoa_out (i : Int) (rest : Bytes) (f : TransportErr)
    (h : ¬ (minInt ≤ i ∧ i ≤ maxInt)) :
    expectDecimal ⟨Itoa i ++ 13 :: rest, f⟩ =
      (.error (.badNumber (Itoa i)), ⟨13 :: rest, f⟩) := by
  rw [expectDecimal_line _ _ _ (Itoa_no_cr i), Atoi_Itoa, if_neg h]

/-- The header `*<N>\r\n` with `N` within the limit leads into the element loop. -/
theorem parse_header (n : Nat) (rest : Bytes) (f : TransportErr) (h : n ≤ 10000000) :
    parseRedisArrayBulkString ⟨B "*" ++ Itoa n ++ B "\r\n" ++ rest, f⟩ =
      parseRedisArrayBulkString.loop n [] ⟨rest, f⟩ := by
  have hr := int_range_of_le n h
  have e : B "*" ++ Itoa n ++ B "\r\n" ++ rest = B "*" ++ (Itoa n ++ 13 :: (10 :: rest)) := by
    simp [B_crlf]
  have hs : ¬ (((n : Nat) : Int) < 0 ∨ ((n : Nat) : Int) > redisMaxBulkStrings) := by
    unfold redisMaxBulkStrings
    omega
  rw [e, parseRedisArrayBulkString, expectString_append]
  simp only [expectDecimal_Itoa _ _ _ hr, expectCRLF_cons, hs, if_false, Int.toNat_ofNat]

theorem parse_wireFrame (ss : List Bytes) (rest : Bytes) (f : TransportErr)
    (hN : ss.length ≤ 10000000) (hL : ∀ s ∈ ss, s.length ≤ 1000000) :
    parseRedisArrayBulkString ⟨wireFrame ss ++ rest, f⟩ = (.ok ss, ⟨rest, f⟩) := by
  have e : wireFrame ss ++ rest =
      B "*" ++ Itoa ss.length ++ B "\r\n" ++ (ss.flatMap wireElement ++ rest) := by
    simp [wireFrame]
  have h0 := loop_wireElements ss 0 [] rest f hL
  rw [Nat.add_zero] at h0
  rw [e, parse_header _ _ _ hN, h0]
  simp [parseRedisArrayBulkString.loop]

/-! ## Theorems: the decoder -/

/-- C1: decode round trip.  For every list `ss` of at most 10,000,000 byte strings, each
of at most 1,000,000 bytes (any bytes, CR and LF included), every trailing byte sequence
`rest` and every transport, `parseRedisArrayBulkString` on the wire form of `ss` followed
by `rest` returns exactly `ss`, in order and with no error, and leaves exactly `rest`
unread. -/
theorem C1_decode_round_trip (ss : List Bytes) (rest : Bytes) (f : TransportErr)
    (hN : ss.length ≤ 10000000) (hL : ∀ s ∈ ss, s.length ≤ 1000000) :
    parseRedisArrayBulkString ⟨wireFrame ss ++ rest, f⟩ = (.ok ss, ⟨rest, f⟩) :=
  parse_wireFrame ss rest f hN hL

/-- Witness of C1: the frame of `GET`, then an element holding CR, LF and a zero byte,
followed by two more bytes. -/
theorem C1_decode_round_trip_witness :
    [B "GET", [13, 10, 0]].length ≤ 10000000 ∧
    (∀ s ∈ [B "GET", [13, 10, 0]], s.length ≤ 1000000) ∧
    wireFrame [B "GET", [13, 10, 0]] ++ B "*1" = B "*2\r\n$3\r\nGET\r\n$3\r\n\r\n\x00\r\n*1" ∧
    parseRedisArrayBulkString ⟨wireFrame [B "GET", [13, 10, 0]] ++ B "*1", .eof⟩ =
      (.ok [B "GET", [13, 10, 0]], ⟨B "*1", .eof⟩) :=
  ⟨by decide, by decide, by rfl,
    C1_decode_round_trip [B "GET", [13, 10, 0]] (B "*1") .eof (by decide) (by decide)⟩

/-! ## Theorems: the reply encoder -/

/-- C2: reply encoding is byte-exact.  For every payload `m` (`none` is the nil slice,
whose bytes are the empty sequence) and every writer `w`, the single write that
`Response.Write` issues carries: `-` ++ m ++ CRLF for type `RedisErr`; `+` ++ m ++ CRLF for
`RedisString`; `$` ++ decimal(len m) ++ CRLF ++ m ++ CRLF for `RedisBulk` with a payload
present, which for the empty payload is `$0\r\n\r\n`; and `$-1\r\n` for `RedisBulk`
with the payload absent.  On a working writer these bytes are appended to the output
and no error is returned. -/
theorem C2_reply_encoding :
    (∀ (m : Option Bytes) (w : Writer),
      Response.Write ⟨RedisErr, m⟩ w = some (w.Write (B "-" ++ m.getD [] ++ B "\r\n"))) ∧
    (∀ (m : Option Bytes) (w : Writer),
      Response.Write ⟨RedisString, m⟩ w = some (w.Write (B "+" ++ m.getD [] ++ B "\r\n"))) ∧
    (∀ (m : Bytes) (w : Writer),
      Response.Write ⟨RedisBulk, some m⟩ w =
        some (w.Write (B "$" ++ Itoa m.length ++ B "\r\n" ++ m ++ B "\r\n"))) ∧
    (∀ (w : Writer), Response.Write ⟨RedisBulk, some []⟩ w = some (w.Write (B "$0\r\n\r\n"))) ∧
    (∀ (w : Writer), Response.Write ⟨RedisBulk, none⟩ w = some (w.Write (B "$-1\r\n"))) ∧
    (∀ (out msg : Bytes), Writer.Write ⟨out, none⟩ msg = (none, ⟨out ++ msg, none⟩)) ∧
    Response.Write ⟨RedisBulk, some (B "bar")⟩ ⟨B "+OK\r\n", none⟩ =
      some (none, ⟨B "+OK\r\n$3\r\nbar\r\n", none⟩) := by
  refine ⟨?_, ?_, ?_, ?_, ?_, ?_, by rfl⟩
  · intro m w; rfl
  · intro m w; rfl
  · intro m w; rfl
  · intro w; rfl
  · intro w; rfl
  · intro out msg; rfl

/-! ## Lemmas: the command interpreter -/

theorem Parse_decoded (E : Env) (r : Request) (br br' : Reader) (a : List Bytes)
    (h : parseRedisArrayBulkString br = (.ok a, br')) :
    Request.Parse E r br = (Request.Parse.interpret E r a, br') := by
  simp [Request.Parse, h]

/-- The only errors the option loop returns. -/
theorem options_error (E : Env) (n : Nat) :
    ∀ (opts : List Bytes) (nx : Bool) (e : GoError), opts.length ≤ n →
      Request.Parse.options E opts nx = .error e →
      e = .ErrSetXXUnupported ∨ e = .expiryWithoutValue (B "EX") ∨
        e = .expiryWithoutValue (B "PX") := by
  induction n with
  | zero =>
    intro opts nx e hl h
    have : opts = [] := List.length_eq_zero.mp (Nat.le_zero.mp hl)
    subst this
    simp [Request.Parse.options] at h
  | succ k ih =>
    intro opts nx e hl h
    match opts, hl, h with
    | [], _, h => simp [Request.Parse.options] at h
    | p :: rest, hl, h =>
      have hl' : rest.length ≤ k := by simpa using hl
      unfold Request.Parse.options at h
      by_cases hx : ToUpper E p = B "EX" ∨ ToUpper E p = B "PX"
      · simp only [hx, if_true] at h
        match rest, hl', h with
        | [], _, h =>
          simp only [Except.error.injEq] at h
          rcases hx with hx | hx
          · exact Or.inr (Or.inl (by rw [← h, hx]))
          · exact Or.inr (Or.inr (by rw [← h, hx]))
        | _ :: rest', hl', h =>
          exact ih rest' nx e (by simp at hl'; omega) h
      · simp only [hx, if_false] at h
        by_cases hxx : ToUpper E p = B "XX"
        · simp only [hxx, if_true, Except.error.injEq] at h
          exact Or.inl h.symm
        · simp only [hxx, if_false] at h
          by_cases hnx : ToUpper E p = B "NX"
          · simp only [hnx, if_true] at h
            exact ih rest true e hl' h
          · simp only [hnx, if_false] at h
            exact ih rest nx e hl' h

theorem names_distinct :
    B "SET" ≠ B "GET" ∧ B "SET" ≠ B "PING" ∧ B "SET" ≠ B "INFO" ∧
    B "GET" ≠ B "PING" ∧ B "GET" ≠ B "INFO" ∧ B "PING" ≠ B "INFO" := by decide

/-- What the interpreter does with a SET of at least three elements. -/
theorem interpret_set (E : Env) (r : Request) (c k v : Bytes) (opts : List Bytes)
    (hS : ToUpper E c = B "SET") :
    Request.Parse.interpret E r (c :: k :: v :: opts) =
      match Request.Parse.options E opts false with
      | .error err => ({ r with Typ := RequestSet, Key := some k, Val := some v }, some err)
      | .ok nx =>
        if !nx then
          ({ r with Typ := RequestSet, Key := some k, Val := some v }, some .ErrSetNXRequired)
        else ({ r with Typ := RequestSet, Key := some k, Val := some v }, none) := by
  unfold Request.Parse.interpret
  simp [hS]

/-- The error of the interpreter on a SET with at least three elements is never one of
the arity or command errors. -/
theorem set_error (E : Env) (r : Request) (c k v : Bytes) (opts : List Bytes) (e : GoError)
    (hS : ToUpper E c = B "SET")
    (h : (Request.Parse.interpret E r (c :: k :: v :: opts)).2 = some e) :
    e ≠ .ErrWrongNumArgs ∧ e ≠ .ErrUnrecognizedCommand := by
  rw [interpret_set E r c k v opts hS] at h
  cases ho : Request.Parse.options E opts false with
  | error err =>
    rw [ho] at h
    simp only [Option.some.injEq] at h
    subst h
    rcases options_error E _ _ _ _ (le_refl _) ho with h | h | h <;> rw [h] <;> simp
  | ok nx =>
    rw [ho] at h
    cases nx <;> simp at h
    subst h
    simp

theorem three_of_not_lt (c : Bytes) (args : List Bytes) (h : ¬ (c :: args).length < 3) :
    ∃ k v opts, args = k :: v :: opts := by
  match args, h with
  | [], h => simp at h
  | [_], h => simp at h
  | k :: v :: opts, _ => exact ⟨k, v, opts, rfl⟩

/-! ## Theorems: the command interpreter -/

/-- C3: command selection and arity.  For every request whose decoded array is
non-empty, `c :: args`, the command is selected by the upper-cased first element (so
`get`, `Get` and `GET` all select GET).  `Request.Parse` returns `ErrWrongNumArgs`
exactly when the command is SET with fewer than 3 elements, GET with a number of
elements other than 2, PING with other than 1, or INFO with other than 1; it returns
`ErrUnrecognizedCommand` exactly when the command is none of SET, GET, PING, INFO; and
the two errors are distinct, with distinct texts. -/
theorem C3_command_selection (E : Env) (r : Request) (br br' : Reader) (c : Bytes)
    (args : List Bytes) (h : parseRedisArrayBulkString br = (.ok (c :: args), br')) :
    ((Request.Parse E r br).1.2 = some .ErrWrongNumArgs ↔
      (ToUpper E c = B "SET" ∧ (c :: args).length < 3) ∨
      (ToUpper E c = B "GET" ∧ (c :: args).length ≠ 2) ∨
      (ToUpper E c = B "PING" ∧ (c :: args).length ≠ 1) ∨
      (ToUpper E c = B "INFO" ∧ (c :: args).length ≠ 1)) ∧
    ((Request.Parse E r br).1.2 = some .ErrUnrecognizedCommand ↔
      ToUpper E c ≠ B "SET" ∧ ToUpper E c ≠ B "GET" ∧ ToUpper E c ≠ B "PING" ∧
        ToUpper E c ≠ B "INFO") ∧
    GoError.ErrWrongNumArgs ≠ GoError.ErrUnrecognizedCommand ∧
    GoError.ErrWrongNumArgs.Error E ≠ GoError.ErrUnrecognizedCommand.Error E ∧
    ToUpper E (B "get") = B "GET" ∧ ToUpper E (B "Get") = B "GET" ∧
    ToUpper E (B "GET") = B "GET" := by
  obtain ⟨n1, n2, n3, n4, n5, n6⟩ := names_distinct
  have ht : B "wrong number of arguments for command" ≠ B "unrecognized command" := by decide
  refine ⟨?_, ?_, by simp, ht, by rfl, by rfl, by rfl⟩
  · rw [Parse_decoded E r br br' _ h]
    by_cases hS : ToUpper E c = B "SET"
    · simp only [hS, n1, n2, n3, false_and, or_false, true_and]
      by_cases h3 : (c :: args).length < 3
      · have h3' : args.length + 1 < 3 := by simpa using h3
        unfold Request.Parse.interpret
        simp [h3', hS]
      · obtain ⟨k, v, opts, rfl⟩ := three_of_not_lt c args h3
        simp only [h3, iff_false]
        intro he
        exact (set_error E r c k v opts _ hS he).1 rfl
    · unfold Request.Parse.interpret
      simp only [List.length_cons, Nat.add_one_ne_zero, if_false, List.getD_cons_zero]
      simp only [hS, if_false, false_and, false_or]
      by_cases hG : ToUpper E c = B "GET"
      · simp only [hG, if_true, n4, n5, false_and, or_false, true_and]
        by_cases h2 : args.length + 1 = 2 <;> simp [h2]
      · simp only [hG, if_false, false_and, false_or]
        by_cases hP : ToUpper E c = B "PING"
        · simp only [hP, if_true, n6, false_and, or_false, true_and]
          by_cases h1 : args.length + 1 = 1 <;> simp [h1]
        · simp only [hP, if_false, false_and, false_or]
          by_cases hI : ToUpper E c = B "INFO"
          · simp only [hI, if_true, true_and]
            by_cases h1 : args.length + 1 = 1 <;> simp [h1]
          · simp [hI]
  · rw [Parse_decoded E r br br' _ h]
    by_cases hS : ToUpper E c = B "SET"
    · simp only [hS, ne_eq, not_true_eq_false, false_and, iff_false]
      by_cases h3 : (c :: args).length < 3
      · have h3' : args.length + 1 < 3 := by simpa using h3
        unfold Request.Parse.interpret
        simp [h3', hS]
      · obtain ⟨k, v, opts, rfl⟩ := three_of_not_lt c args h3
        intro he
        exact (set_error E r c k v opts _ hS he).2 rfl
    · unfold Request.Parse.interpret
      simp only [List.length_cons, Nat.add_one_ne_zero, if_false, List.getD_cons_zero]
      simp only [hS, if_false]
      by_cases hG : ToUpper E c = B "GET"
      · simp only [hG, if_true]
        by_cases h2 : args.length + 1 = 2 <;> simp [h2, n4, n5]
      · simp only [hG, if_false]
        by_cases hP : ToUpper E c = B "PING"
        · simp only [hP, if_true]
          by_cases h1 : args.length + 1 = 1 <;> simp [h1, n6]
        · simp only [hP, if_false]
          by_cases hI : ToUpper E c = B "INFO"
          · simp only [hI, if_true]
            by_cases h1 : args.length + 1 = 1 <;> simp [h1]
          · simp [hI, hS, hG, hP]

/-- Witness of C3: `PING x` decodes to two elements and is a wrong-arity error. -/
theorem C3_command_selection_witness :
    parseRedisArrayBulkString ⟨B "*2\r\n$4\r\nping\r\n$1\r\nx\r\n", .eof⟩ =
      (.ok (B "ping" :: [B "x"]), ⟨[], .eof⟩) ∧
    (Request.Parse sampleEnv {} ⟨B "*2\r\n$4\r\nping\r\n$1\r\nx\r\n", .eof⟩).1.2 =
      some .ErrWrongNumArgs :=
  ⟨by rfl,
    (C3_command_selection sampleEnv {} ⟨B "*2\r\n$4\r\nping\r\n$1\r\nx\r\n", .eof⟩ ⟨[], .eof⟩
      (B "ping") [B "x"] (by rfl)).1.mpr (Or.inr (Or.inr (Or.inl ⟨by rfl, by decide⟩)))⟩

/-! ## Lemmas: the option scan -/

theorem tokens_distinct :
    ¬ (B "XX" = B "EX" ∨ B "XX" = B "PX") ∧ ¬ (B "NX" = B "EX" ∨ B "NX" = B "PX") ∧
    B "NX" ≠ B "XX" := by decide

theorem isExpiry_ne (E : Env) (p : Bytes) (h : isExpiry E p) :
    ToUpper E p ≠ B "XX" ∧ ToUpper E p ≠ B "NX" := by
  rcases h with h | h <;> rw [h] <;> decide

theorem options_meets_xx (E : Env) :
    ∀ (opts : List Bytes) (nx : Bool), (∃ t ∈ scanned E opts, ToUpper E t = B "XX") →
      Request.Parse.options E opts nx = .error .ErrSetXXUnupported
  | [], _, h => by simp [scanned] at h
  | [p], nx, h => by
    have hp : ToUpper E p = B "XX" := by simpa [scanned] using h
    simp [Request.Parse.options, hp, tokens_distinct.1]
  | p :: q :: rest, nx, h => by
    unfold Request.Parse.options
    by_cases hx : isExpiry E p
    · have hx' : ToUpper E p = B "EX" ∨ ToUpper E p = B "PX" := hx
      have h' : ∃ t ∈ scanned E rest, ToUpper E t = B "XX" := by
        simpa [scanned, hx, (isExpiry_ne E p hx).1] using h
      simp only [hx', if_true]
      exact options_meets_xx E rest nx h'
    · have hx' : ¬ (ToUpper E p = B "EX" ∨ ToUpper E p = B "PX") := hx
      simp only [hx', if_false]
      by_cases hxx : ToUpper E p = B "XX"
      · simp [hxx]
      · have h' : ∃ t ∈ scanned E (q :: rest), ToUpper E t = B "XX" := by
          simpa [scanned, hx, hxx] using h
        simp only [hxx, if_false]
        by_cases hnx : ToUpper E p = B "NX"
        · simp only [hnx, if_true]
          exact options_meets_xx E (q :: rest) true h'
        · simp only [hnx, if_false]
          exact options_meets_xx E (q :: rest) nx h'

theorem options_clean (E : Env) :
    ∀ (opts : List Bytes) (nx : Bool), (∀ t ∈ scanned E opts, ToUpper E t ≠ B "XX") →
      dangling E opts = false →
      Request.Parse.options E opts nx =
        .ok (nx || (scanned E opts).any (fun t => decide (ToUpper E t = B "NX")))
  | [], nx, _, _ => by simp [Request.Parse.options, scanned]
  | [p], nx, h, hd => by
    have hx : ¬ (ToUpper E p = B "EX" ∨ ToUpper E p = B "PX") := by
      simpa [dangling, isExpiry] using hd
    have hxx : ToUpper E p ≠ B "XX" := h p (by simp [scanned])
    unfold Request.Parse.options
    simp only [hx, hxx, if_false]
    by_cases hnx : ToUpper E p = B "NX"
    · simp [hnx, Request.Parse.options, scanned]
    · simp [hnx, Request.Parse.options, scanned]
  | p :: q :: rest, nx, h, hd => by
    unfold Request.Parse.options
    by_cases hx : isExpiry E p
    · have hx' : ToUpper E p = B "EX" ∨ ToUpper E p = B "PX" := hx
      have hd' : dangling E rest = false := by simpa [dangling, hx] using hd
      have h' : ∀ t ∈ scanned E rest, ToUpper E t ≠ B "XX" := fun t ht =>
        h t (by simp [scanned, hx, ht])
      simp only [hx', if_true]
      rw [options_clean E rest nx h' hd']
      simp [scanned, hx, (isExpiry_ne E p hx).2]
    · have hx' : ¬ (ToUpper E p = B "EX" ∨ ToUpper E p = B "PX") := hx
      have hd' : dangling E (q :: rest) = false := by simpa [dangling, hx] using hd
      have h' : ∀ t ∈ scanned E (q :: rest), ToUpper E t ≠ B "XX" := fun t ht =>
        h t (by simp [scanned, hx, ht])
      have hxx : ToUpper E p ≠ B "XX" := h p (by simp [scanned, hx])
      simp only [hx', hxx, if_false]
      by_cases hnx : ToUpper E p = B "NX"
      · simp only [hnx, if_true]
        rw [options_clean E (q :: rest) true h' hd']
        simp [scanned, hx, hnx]
      · simp only [hnx, if_false]
        rw [options_clean E (q :: rest) nx h' hd']
        simp [scanned, hx, hnx]

theorem scanned_subset (E : Env) : ∀ (opts : List Bytes) (t : Bytes), t ∈ scanned E opts → t ∈ opts
  | [], t, h => by simp [scanned] at h
  | [p], t, h => by simpa [scanned] using h
  | p :: q :: rest, t, h => by
    by_cases hx : isExpiry E p
    · simp only [scanned, hx, if_true, List.mem_cons] at h
      rcases h with h | h
      · simp [h]
      · have := scanned_subset E rest t h
        simp [this]
    · simp only [scanned, hx, if_false, List.mem_cons] at h
      rcases h with h | h
      · simp [h]
      · have := scanned_subset E (q :: rest) t h
        simp only [List.mem_cons] at this ⊢
        exact Or.inr this

/-! ## Theorems: SET and its options -/

/-- C4: accepted SET.  For every request whose decoded array is `c :: k :: v :: opts`
with `c` equal to SET up to letter case, if the left-to-right scan of `opts` (which
passes over the token after each `EX` or `PX`, whatever it is) meets an `NX` token,
meets no `XX` token, and every `EX` or `PX` it meets is followed by one more token,
then `Request.Parse` succeeds with `Typ = RequestSet`, `Key = k`, `Val = v`; nothing
else of `opts` shows in the result. -/
theorem C4_accepted_set (E : Env) (r : Request) (br br' : Reader) (c k v : Bytes)
    (opts : List Bytes)
    (h : parseRedisArrayBulkString br = (.ok (c :: k :: v :: opts), br'))
    (hS : ToUpper E c = B "SET")
    (hNX : ∃ t ∈ scanned E opts, ToUpper E t = B "NX")
    (hXX : ∀ t ∈ scanned E opts, ToUpper E t ≠ B "XX")
    (hD : dangling E opts = false) :
    Request.Parse E r br =
      (({ r with Typ := RequestSet, Key := some k, Val := some v }, none), br') := by
  have hany : (scanned E opts).any (fun t => decide (ToUpper E t = B "NX")) = true := by
    simpa using hNX
  rw [Parse_decoded E r br br' _ h, interpret_set E r c k v opts hS,
    options_clean E opts false hXX hD, hany]
  rfl

/-- Witness of C4: `set foo bar ex XX junk nx`; the `XX` is the value of `ex` and is
passed over, `junk` is no option at all. -/
theorem C4_accepted_set_witness :
    parseRedisArrayBulkString
        ⟨wireFrame [B "set", B "foo", B "bar", B "ex", B "XX", B "junk", B "nx"], .eof⟩ =
      (.ok (B "set" :: B "foo" :: B "bar" :: [B "ex", B "XX", B "junk", B "nx"]), ⟨[], .eof⟩) ∧
    scanned sampleEnv [B "ex", B "XX", B "junk", B "nx"] = [B "ex", B "junk", B "nx"] ∧
    dangling sampleEnv [B "ex", B "XX", B "junk", B "nx"] = false ∧
    Request.Parse sampleEnv {}
        ⟨wireFrame [B "set", B "foo", B "bar", B "ex", B "XX", B "junk", B "nx"], .eof⟩ =
      (({ Typ := RequestSet, Key := some (B "foo"), Val := some (B "bar") }, none),
        ⟨[], .eof⟩) :=
  ⟨by rfl, by decide, by decide,
    C4_accepted_set sampleEnv {} _ ⟨[], .eof⟩ (B "set") (B "foo") (B "bar")
      [B "ex", B "XX", B "junk", B "nx"] (by rfl) (by rfl) (by decide) (by decide)
      (by decide)⟩

/-- C5, as stated, fails: in `SET foo bar EX XX` an option token equals `XX`, but it
stands where the value of `EX` is expected and is passed over; `Request.Parse` returns
the error "the NX option to SET is required", not the XX error. -/
theorem C5_counterexample :
    parseRedisArrayBulkString ⟨wireFrame [B "SET", B "foo", B "bar", B "EX", B "XX"], .eof⟩ =
      (.ok (B "SET" :: B "foo" :: B "bar" :: [B "EX", B "XX"]), ⟨[], .eof⟩) ∧
    (∃ t ∈ [B "EX", B "XX"], ToUpper sampleEnv t = B "XX") ∧
    (Request.Parse sampleEnv {}
        ⟨wireFrame [B "SET", B "foo", B "bar", B "EX", B "XX"], .eof⟩).1.2 =
      some .ErrSetNXRequired ∧
    GoError.ErrSetNXRequired.Error sampleEnv ≠ B "the XX option to SET is not supported" := by
  have hp : parseRedisArrayBulkString
      ⟨wireFrame [B "SET", B "foo", B "bar", B "EX", B "XX"], .eof⟩ =
      (.ok (B "SET" :: B "foo" :: B "bar" :: [B "EX", B "XX"]), ⟨[], .eof⟩) := by rfl
  refine ⟨hp, by decide, ?_, by decide⟩
  rw [Parse_decoded sampleEnv {} _ _ _ hp]
  rfl

/-- C5, amended: for every request whose decoded array is `c :: k :: v :: opts` with `c`
equal to SET up to letter case, if the left-to-right scan of `opts` (which passes over
the token after each `EX` or `PX`) meets a token equal to `XX` up to letter case, then
`Request.Parse` fails with the error whose text is "the XX option to SET is not
supported", whatever the other arguments are. -/
theorem C5_set_xx_refused (E : Env) (r : Request) (br br' : Reader) (c k v : Bytes)
    (opts : List Bytes)
    (h : parseRedisArrayBulkString br = (.ok (c :: k :: v :: opts), br'))
    (hS : ToUpper E c = B "SET")
    (hXX : ∃ t ∈ scanned E opts, ToUpper E t = B "XX") :
    (Request.Parse E r br).1.2 = some .ErrSetXXUnupported ∧
    GoError.ErrSetXXUnupported.Error E = B "the XX option to SET is not supported" := by
  rw [Parse_decoded E r br br' _ h, interpret_set E r c k v opts hS,
    options_meets_xx E opts false hXX]
  exact ⟨rfl, rfl⟩

/-- Witness of C5 amended: `SET foo bar NX EX 10 xx`, where `EX` and its value come
before the `xx`. -/
theorem C5_set_xx_refused_witness :
    parseRedisArrayBulkString
        ⟨wireFrame [B "SET", B "foo", B "bar", B "NX", B "EX", B "10", B "xx"], .eof⟩ =
      (.ok (B "SET" :: B "foo" :: B "bar" :: [B "NX", B "EX", B "10", B "xx"]), ⟨[], .eof⟩) ∧
    (∃ t ∈ scanned sampleEnv [B "NX", B "EX", B "10", B "xx"], ToUpper sampleEnv t = B "XX") ∧
    (Request.Parse sampleEnv {}
        ⟨wireFrame [B "SET", B "foo", B "bar", B "NX", B "EX", B "10", B "xx"], .eof⟩).1.2 =
      some .ErrSetXXUnupported :=
  ⟨by rfl, by decide,
    (C5_set_xx_refused sampleEnv {} _ ⟨[], .eof⟩ (B "SET") (B "foo") (B "bar")
      [B "NX", B "EX", B "10", B "xx"] (by rfl) (by rfl) (by decide)).1⟩

/-- C6, as stated, fails: in `SET foo bar XX` no option token equals `NX`, but
`Request.Parse` returns the XX error, not "the NX option to SET is required". -/
theorem C6_counterexample :
    parseRedisArrayBulkString ⟨wireFrame [B "SET", B "foo", B "bar", B "XX"], .eof⟩ =
      (.ok (B "SET" :: B "foo" :: B "bar" :: [B "XX"]), ⟨[], .eof⟩) ∧
    (∀ t ∈ [B "XX"], ToUpper sampleEnv t ≠ B "NX") ∧
    (Request.Parse sampleEnv {} ⟨wireFrame [B "SET", B "foo", B "bar", B "XX"], .eof⟩).1.2 =
      some .ErrSetXXUnupported ∧
    GoError.ErrSetXXUnupported.Error sampleEnv ≠ B "the NX option to SET is required" := by
  have hp : parseRedisArrayBulkString ⟨wireFrame [B "SET", B "foo", B "bar", B "XX"], .eof⟩ =
      (.ok (B "SET" :: B "foo" :: B "bar" :: [B "XX"]), ⟨[], .eof⟩) := by rfl
  refine ⟨hp, by decide, ?_, by decide⟩
  rw [Parse_decoded sampleEnv {} _ _ _ hp]
  rfl

/-- C6, amended: for every request whose decoded array is `c :: k :: v :: opts` with `c`
equal to SET up to letter case, if no token of `opts` equals `NX` up to letter case, and
the left-to-right scan of `opts` meets no `XX` token and no `EX` or `PX` without a token
after it, then `Request.Parse` fails with the error whose text is "the NX option to SET
is required", whatever the other arguments are. -/
theorem C6_set_nx_required (E : Env) (r : Request) (br br' : Reader) (c k v : Bytes)
    (opts : List Bytes)
    (h : parseRedisArrayBulkString br = (.ok (c :: k :: v :: opts), br'))
    (hS : ToUpper E c = B "SET")
    (hNX : ∀ t ∈ opts, ToUpper E t ≠ B "NX")
    (hXX : ∀ t ∈ scanned E opts, ToUpper E t ≠ B "XX")
    (hD : dangling E opts = false) :
    (Request.Parse E r br).1.2 = some .ErrSetNXRequired ∧
    GoError.ErrSetNXRequired.Error E = B "the NX option to SET is required" := by
  have hany : (scanned E opts).any (fun t => decide (ToUpper E t = B "NX")) = false := by
    rw [List.any_eq_false]
    intro t ht
    simpa using hNX t (scanned_subset E opts t ht)
  rw [Parse_decoded E r br br' _ h, interpret_set E r c k v opts hS,
    options_clean E opts false hXX hD, hany]
  exact ⟨rfl, rfl⟩

/-- Witness of C6 amended: `SET foo bar EX 10 keepttl`. -/
theorem C6_set_nx_required_witness :
    parseRedisArrayBulkString
        ⟨wireFrame [B "SET", B "foo", B "bar", B "EX", B "10", B "keepttl"], .eof⟩ =
      (.ok (B "SET" :: B "foo" :: B "bar" :: [B "EX", B "10", B "keepttl"]), ⟨[], .eof⟩) ∧
    (∀ t ∈ [B "EX", B "10", B "keepttl"], ToUpper sampleEnv t ≠ B "NX") ∧
    (Request.Parse sampleEnv {}
        ⟨wireFrame [B "SET", B "foo", B "bar", B "EX", B "10", B "keepttl"], .eof⟩).1.2 =
      some .ErrSetNXRequired :=
  ⟨by rfl, by decide,
    (C6_set_nx_required sampleEnv {} _ ⟨[], .eof⟩ (B "SET") (B "foo") (B "bar")
      [B "EX", B "10", B "keepttl"] (by rfl) (by rfl) (by decide) (by decide) (by decide)).1⟩

/-! ## Lemmas: the size guards -/

theorem transport_ne_count (t : TransportErr) :
    t.atStart ≠ .ErrRedisBadBulkStringCount ∧ t.midway ≠ .ErrRedisBadBulkStringCount := by
  cases t <;> simp [TransportErr.atStart, TransportErr.midway]

theorem ReadFull_ne_count (br br' : Reader) (n : Nat) (e : GoError)
    (h : ReadFull br n = (.error e, br')) : e ≠ .ErrRedisBadBulkStringCount := by
  unfold ReadFull at h
  split at h
  · simp at h
  · simp only [Prod.mk.injEq, Except.error.injEq] at h
    rw [← h.1]
    split
    · exact (transport_ne_count _).1
    · exact (transport_ne_count _).2

theorem expectString_ne_count (br br' : Reader) (s : Bytes) (e : GoError)
    (h : expectString br s = (some e, br')) : e ≠ .ErrRedisBadBulkStringCount := by
  unfold expectString at h
  split at h
  · rename_i err br1 hr
    simp only [Prod.mk.injEq, Option.some.injEq] at h
    rw [← h.1]
    exact ReadFull_ne_count _ _ _ _ hr
  · split at h
    · simp only [Prod.mk.injEq, Option.some.injEq] at h
      rw [← h.1]
      simp
    · simp at h

theorem expectDecimal_ne_count (br br' : Reader) (e : GoError)
    (h : expectDecimal br = (.error e, br')) : e ≠ .ErrRedisBadBulkStringCount := by
  unfold expectDecimal at h
  split at h
  · rename_i l err br1 hr
    simp only [Prod.mk.injEq, Except.error.injEq] at h
    rw [← h.1]
    unfold ReadBytes at hr
    split at hr
    · simp only [Prod.mk.injEq, Option.some.injEq] at hr
      rw [← hr.1.2]
      exact (transport_ne_count _).1
    · simp at hr
  · split at h
    · rename_i err br2 hu
      simp only [Prod.mk.injEq, Except.error.injEq] at h
      rw [← h.1]
      unfold UnreadByte at hu
      split at hu
      · simp only [Prod.mk.injEq, Option.some.injEq] at hu
        rw [← hu.1]
        simp
      · simp at hu
    · simp only at h
      split at h
      · simp only [Prod.mk.injEq, Except.error.injEq] at h
        rw [← h.1]
        simp
      · simp at h

/-- The element loop never returns the error of the count guard. -/
theorem loop_ne_count (n : Nat) :
    ∀ (acc : List Bytes) (br br' : Reader) (e : GoError),
      parseRedisArrayBulkString.loop n acc br = (.error e, br') →
      e ≠ .ErrRedisBadBulkStringCount := by
  induction n with
  | zero =>
    intro acc br br' e h
    simp [parseRedisArrayBulkString.loop] at h
  | succ k ih =>
    intro acc br br' e h
    unfold parseRedisArrayBulkString.loop at h
    split at h
    · rename_i err br1 h1
      simp only [Prod.mk.injEq, Except.error.injEq] at h
      rw [← h.1]
      exact expectString_ne_count _ _ _ _ h1
    · split at h
      · rename_i err br2 h2
        simp only [Prod.mk.injEq, Except.error.injEq] at h
        rw [← h.1]
        exact expectDecimal_ne_count _ _ _ h2
      · split at h
        · rename_i err br3 h3
          simp only [Prod.mk.injEq, Except.error.injEq] at h
          rw [← h.1]
          exact expectString_ne_count _ _ _ _ h3
        · split at h
          · simp only [Prod.mk.injEq, Except.error.injEq] at h
            rw [← h.1]
            simp
          · split at h
            · rename_i err br4 h4
              simp only [Prod.mk.injEq, Except.error.injEq] at h
              rw [← h.1]
              exact ReadFull_ne_count _ _ _ _ h4
            · split at h
              · rename_i err br5 h5
                simp only [Prod.mk.injEq, Except.error.injEq] at h
                rw [← h.1]
                exact expectString_ne_count _ _ _ _ h5
              · exact ih _ _ _ _ h

/-- The header `*<N>\r\n` for any integer `N`. -/
theorem parse_header_int (N : Int) (rest : Bytes) (f : TransportErr) :
    parseRedisArrayBulkString ⟨B "*" ++ Itoa N ++ B "\r\n" ++ rest, f⟩ =
      if minInt ≤ N ∧ N ≤ maxInt then
        if N < 0 ∨ N > redisMaxBulkStrings then
          (.error .ErrRedisBadBulkStringCount, ⟨rest, f⟩)
        else parseRedisArrayBulkString.loop N.toNat [] ⟨rest, f⟩
      else (.error (.badNumber (Itoa N)), ⟨B "\r\n" ++ rest, f⟩) := by
  have e : B "*" ++ Itoa N ++ B "\r\n" ++ rest = B "*" ++ (Itoa N ++ 13 :: (10 :: rest)) := by
    simp [B_crlf]
  rw [e, parseRedisArrayBulkString, expectString_append]
  by_cases hr : minInt ≤ N ∧ N ≤ maxInt
  · simp only [expectDecimal_Itoa _ _ _ hr, expectCRLF_cons, hr, and_self, if_true]
  · simp only [expectDecimal_Itoa_out _ _ _ hr, hr, if_false, B_crlf, List.cons_append,
      List.nil_append]

/-- One turn of the element loop on an element header `$<L>\r\n` for any integer `L`
whose value the guard refuses or `Atoi` cannot hold. -/
theorem loop_bad_length (n : Nat) (acc : List Bytes) (L : Int) (rest : Bytes)
    (f : TransportErr) (hL : L < 0 ∨ L > 1000000) :
    parseRedisArrayBulkString.loop (n + 1) acc ⟨B "$" ++ Itoa L ++ B "\r\n" ++ rest, f⟩ =
      if minInt ≤ L ∧ L ≤ maxInt then (.error .ErrRedisBadStringLen, ⟨rest, f⟩)
      else (.error (.badNumber (Itoa L)), ⟨B "\r\n" ++ rest, f⟩) := by
  have e : B "$" ++ Itoa L ++ B "\r\n" ++ rest = B "$" ++ (Itoa L ++ 13 :: (10 :: rest)) := by
    simp [B_crlf]
  have hg : L < 0 ∨ L > redisMaxStringLen := hL
  rw [e, parseRedisArrayBulkString.loop, expectString_append]
  by_cases hr : minInt ≤ L ∧ L ≤ maxInt
  · simp only [expectDecimal_Itoa _ _ _ hr, expectCRLF_cons, hr, and_self, if_true, hg]
  · simp only [expectDecimal_Itoa_out _ _ _ hr, hr, if_false, B_crlf, List.cons_append,
      List.nil_append]

/-! ## Theorems: the size guards -/

/-- C7: an oversized or negative element count is rejected without reading on.  For
every integer `N` with `N < 0` or `N > 10,000,000`, written in decimal, every
continuation `rest` of the stream and every transport: on `*<N>\r\n` followed by `rest`,
`parseRedisArrayBulkString` returns an error and no strings; when `N` fits the machine
`int` the error is `ErrRedisBadBulkStringCount` and exactly `rest` is left unread;
otherwise not even the `\r\n` of the header is consumed.  The guard is exact at the
boundary: with a count of exactly 10,000,000 the decoder goes on into the element loop
and, whatever follows, never returns `ErrRedisBadBulkStringCount`. -/
theorem C7_count_guard (N : Int) (rest : Bytes) (f : TransportErr)
    (hN : N < 0 ∨ N > 10000000) :
    parseRedisArrayBulkString ⟨B "*" ++ Itoa N ++ B "\r\n" ++ rest, f⟩ =
      (if minInt ≤ N ∧ N ≤ maxInt then (.error .ErrRedisBadBulkStringCount, ⟨rest, f⟩)
       else (.error (.badNumber (Itoa N)), ⟨B "\r\n" ++ rest, f⟩)) ∧
    parseRedisArrayBulkString ⟨B "*10000000\r\n" ++ rest, f⟩ =
      parseRedisArrayBulkString.loop 10000000 [] ⟨rest, f⟩ ∧
    (parseRedisArrayBulkString ⟨B "*10000000\r\n" ++ rest, f⟩).1 ≠
      .error .ErrRedisBadBulkStringCount := by
  have hg : N < 0 ∨ N > redisMaxBulkStrings := hN
  have hb : parseRedisArrayBulkString ⟨B "*10000000\r\n" ++ rest, f⟩ =
      parseRedisArrayBulkString.loop 10000000 [] ⟨rest, f⟩ := by
    have h := parse_header 10000000 rest f (le_refl _)
    have e : B "*" ++ Itoa ((10000000 : Nat) : Int) ++ B "\r\n" = B "*10000000\r\n" := by rfl
    rw [e] at h
    exact h
  refine ⟨?_, hb, ?_⟩
  · rw [parse_header_int]
    simp only [hg, if_true]
  · rw [hb]
    intro h
    exact loop_ne_count _ _ _ _ _ (Prod.ext h rfl) rfl

/-- Witness of C7: the count 10,000,001, followed by what would be a first element. -/
theorem C7_count_guard_witness :
    ((10000001 : Int) < 0 ∨ (10000001 : Int) > 10000000) ∧
    B "*" ++ Itoa 10000001 ++ B "\r\n" ++ B "$1\r\na\r\n" = B "*10000001\r\n$1\r\na\r\n" ∧
    parseRedisArrayBulkString ⟨B "*" ++ Itoa 10000001 ++ B "\r\n" ++ B "$1\r\na\r\n", .eof⟩ =
      (.error .ErrRedisBadBulkStringCount, ⟨B "$1\r\na\r\n", .eof⟩) :=
  ⟨by decide, by rfl, (C7_count_guard 10000001 (B "$1\r\na\r\n") .eof (by decide)).1⟩

/-- The decoder on a header and `ss.length` well-formed elements, with more elements
declared than given so far. -/
theorem parse_leading (N : Nat) (ss : List Bytes) (rest : Bytes) (f : TransportErr)
    (hj : ss.length < N) (hN : N ≤ 10000000) (hss : ∀ s ∈ ss, s.length ≤ 1000000) :
    parseRedisArrayBulkString
        ⟨B "*" ++ Itoa N ++ B "\r\n" ++ ss.flatMap wireElement ++ rest, f⟩ =
      parseRedisArrayBulkString.loop (N - ss.length - 1 + 1) ss ⟨rest, f⟩ := by
  have e : B "*" ++ Itoa N ++ B "\r\n" ++ ss.flatMap wireElement ++ rest =
      B "*" ++ Itoa N ++ B "\r\n" ++ (ss.flatMap wireElement ++ rest) := by
    simp
  have hn : N = ss.length + (N - ss.length - 1 + 1) := by omega
  have h0 := loop_wireElements ss (N - ss.length - 1 + 1) [] rest f hss
  rw [← hn, List.nil_append] at h0
  rw [e, parse_header _ _ _ hN, h0]

/-- C8: an oversized or negative element length is rejected without reading the
payload.  For every declared count `N ≤ 10,000,000`, every list `ss` of fewer than `N`
well-formed elements, and every integer `L` with `L < 0` or `L > 1,000,000` written in
decimal: on the header, the elements of `ss`, then `$<L>\r\n` followed by `rest`,
`parseRedisArrayBulkString` returns an error and no strings; when `L` fits the machine
`int` the error is `ErrRedisBadStringLen` and exactly `rest` is left unread; otherwise
not even the `\r\n` of the element header is consumed.  An element of exactly 1,000,000
bytes in that place is accepted and decoding goes on behind it.  In particular the
element `$-1\r\n` is rejected. -/
theorem C8_length_guard (N : Nat) (ss : List Bytes) (L : Int) (rest : Bytes)
    (f : TransportErr) (hj : ss.length < N) (hN : N ≤ 10000000)
    (hss : ∀ s ∈ ss, s.length ≤ 1000000) (hL : L < 0 ∨ L > 1000000) :
    parseRedisArrayBulkString
        ⟨B "*" ++ Itoa N ++ B "\r\n" ++ ss.flatMap wireElement ++
          (B "$" ++ Itoa L ++ B "\r\n" ++ rest), f⟩ =
      (if minInt ≤ L ∧ L ≤ maxInt then (.error .ErrRedisBadStringLen, ⟨rest, f⟩)
       else (.error (.badNumber (Itoa L)), ⟨B "\r\n" ++ rest, f⟩)) ∧
    (∀ s : Bytes, s.length = 1000000 →
      parseRedisArrayBulkString
          ⟨B "*" ++ Itoa N ++ B "\r\n" ++ ss.flatMap wireElement ++ (wireElement s ++ rest), f⟩ =
        parseRedisArrayBulkString.loop (N - ss.length - 1) (ss ++ [s]) ⟨rest, f⟩) ∧
    parseRedisArrayBulkString ⟨B "*1\r\n$-1\r\n" ++ rest, f⟩ =
      (.error .ErrRedisBadStringLen, ⟨rest, f⟩) := by
  refine ⟨?_, ?_, ?_⟩
  · rw [parse_leading N ss _ f hj hN hss, loop_bad_length _ _ _ _ _ hL]
  · intro s hs
    rw [parse_leading N ss _ f hj hN hss, loop_wireElement _ _ _ _ _ (le_of_eq hs)]
  · have h := parse_leading 1 [] (B "$" ++ Itoa (-1) ++ B "\r\n" ++ rest) f (by decide)
      (by decide) (by simp)
    rw [loop_bad_length _ _ _ _ _ (Or.inl (by decide))] at h
    exact h

/-- Witness of C8: two elements declared, the first well formed, the second with the
length 1,000,001. -/
theorem C8_length_guard_witness :
    [B "GET"].length < 2 ∧ ((1000001 : Int) < 0 ∨ (1000001 : Int) > 1000000) ∧
    B "*" ++ Itoa (2 : Nat) ++ B "\r\n" ++ [B "GET"].flatMap wireElement ++
        (B "$" ++ Itoa 1000001 ++ B "\r\n" ++ B "abc") = B "*2\r\n$3\r\nGET\r\n$1000001\r\nabc" ∧
    parseRedisArrayBulkString
        ⟨B "*" ++ Itoa (2 : Nat) ++ B "\r\n" ++ [B "GET"].flatMap wireElement ++
          (B "$" ++ Itoa 1000001 ++ B "\r\n" ++ B "abc"), .eof⟩ =
      (.error .ErrRedisBadStringLen, ⟨B "abc", .eof⟩) :=
  ⟨by decide, by decide, by rfl,
    (C8_length_guard 2 [B "GET"] 1000001 (B "abc") .eof (by decide) (by decide) (by decide)
      (by decide)).1⟩

/-! ## Theorems: the processor -/

/-- C9: the processor's reply mapping.  For every request `r` that reaches the
`case r := <-requests` branch with the processor in state `p`, the response appended to
the tail of the queue is: the error type with the error's text when `r.Err` is set;
for Set, the simple string `OK` when `Put` returns no error, the bulk type with no
payload when it returns `ErrKeyExist`, the error type with the error's text for any
other error that is not a `FatalDBError`; for Get, the bulk type carrying the returned
value when `Get` returns no error, the bulk type with no payload when it returns
`ErrKeyNotExist`, the error type with the error's text otherwise; for Ping, the simple
string `PONG`; for Info, a simple string (the type is not the bulk type) holding the
rendering of the storage snapshot. -/
theorem C9_reply_mapping {σ : Type} (E : Env) (S : Storage σ) (p : Processor σ)
    (r : Request) :
    (∀ e, r.Err = some e →
      HandleConn.onRequest E S p r =
        some ⟨p.db, p.responseQueue ++ [⟨RedisErr, some (e.Error E)⟩]⟩) ∧
    (r.Err = none → r.Typ = RequestSet →
      (∀ db, S.Put p.db r.Key r.Val = (none, db) →
        HandleConn.onRequest E S p r =
          some ⟨db, p.responseQueue ++ [⟨RedisString, some (B "OK")⟩]⟩) ∧
      (∀ db, S.Put p.db r.Key r.Val = (some .ErrKeyExist, db) →
        HandleConn.onRequest E S p r = some ⟨db, p.responseQueue ++ [⟨RedisBulk, none⟩]⟩) ∧
      (∀ db e, S.Put p.db r.Key r.Val = (some e, db) → e ≠ .ErrKeyExist →
        (∀ msg, e ≠ .FatalDBError msg) →
        HandleConn.onRequest E S p r =
          some ⟨db, p.responseQueue ++ [⟨RedisErr, some (e.Error E)⟩]⟩)) ∧
    (r.Err = none → r.Typ = RequestGet →
      (∀ db v, S.Get p.db r.Key = ((v, none), db) →
        HandleConn.onRequest E S p r = some ⟨db, p.responseQueue ++ [⟨RedisBulk, v⟩]⟩) ∧
      (∀ db v, S.Get p.db r.Key = ((v, some .ErrKeyNotExist), db) →
        HandleConn.onRequest E S p r = some ⟨db, p.responseQueue ++ [⟨RedisBulk, none⟩]⟩) ∧
      (∀ db v e, S.Get p.db r.Key = ((v, some e), db) → e ≠ .ErrKeyNotExist →
        HandleConn.onRequest E S p r =
          some ⟨db, p.responseQueue ++ [⟨RedisErr, some (e.Error E)⟩]⟩)) ∧
    (r.Err = none → r.Typ = RequestPing →
      HandleConn.onRequest E S p r =
        some ⟨p.db, p.responseQueue ++ [⟨RedisString, some (B "PONG")⟩]⟩) ∧
    (r.Err = none → r.Typ = RequestInfo →
      HandleConn.onRequest E S p r =
        some ⟨p.db, p.responseQueue ++ [⟨RedisString, some (S.Info p.db)⟩]⟩) ∧
    RedisString ≠ RedisBulk := by
  have d12 : RequestGet ≠ RequestSet := by decide
  have d13 : RequestPing ≠ RequestSet := by decide
  have d14 : RequestInfo ≠ RequestSet := by decide
  have d23 : RequestPing ≠ RequestGet := by decide
  have d24 : RequestInfo ≠ RequestGet := by decide
  have d34 : RequestInfo ≠ RequestPing := by decide
  refine ⟨?_, ?_, ?_, ?_, ?_, by decide⟩
  · intro e he
    simp [HandleConn.onRequest, HandleConn.respond, he]
  · intro he ht
    refine ⟨?_, ?_, ?_⟩
    · intro db hp
      simp [HandleConn.onRequest, HandleConn.respond, he, ht, hp]
    · intro db hp
      simp [HandleConn.onRequest, HandleConn.respond, he, ht, hp]
    · intro db e hp hne hnf
      cases e <;>
        first
        | exact absurd rfl hne
        | exact absurd rfl (hnf _)
        | simp [HandleConn.onRequest, HandleConn.respond, he, ht, hp, ResponseFromError]
  · intro he ht
    refine ⟨?_, ?_, ?_⟩
    · intro db v hp
      simp [HandleConn.onRequest, HandleConn.respond, he, ht, hp, d12]
    · intro db v hp
      simp [HandleConn.onRequest, HandleConn.respond, he, ht, hp, d12]
    · intro db v e hp hne
      simp [HandleConn.onRequest, HandleConn.respond, he, ht, hp, d12, hne, ResponseFromError]
  · intro he ht
    simp [HandleConn.onRequest, HandleConn.respond, he, ht, d13, d23]
  · intro he ht
    simp [HandleConn.onRequest, HandleConn.respond, he, ht, d14, d24, d34]

/-- Witness of C9: a Set of a key that the store already holds is answered with the
bulk type and no payload, behind the response already queued. -/
theorem C9_reply_mapping_witness :
    memStorage.Put [(B "foo", B "bar")] (some (B "foo")) (some (B "baz")) =
      (some .ErrKeyExist, [(B "foo", B "bar")]) ∧
    HandleConn.onRequest sampleEnv memStorage
        ⟨[(B "foo", B "bar")], [⟨RedisString, some (B "OK")⟩]⟩
        { Typ := RequestSet, Key := some (B "foo"), Val := some (B "baz") } =
      some ⟨[(B "foo", B "bar")], [⟨RedisString, some (B "OK")⟩] ++ [⟨RedisBulk, none⟩]⟩ :=
  ⟨by rfl,
    (C9_reply_mapping sampleEnv memStorage
      ⟨[(B "foo", B "bar")], [⟨RedisString, some (B "OK")⟩]⟩
      { Typ := RequestSet, Key := some (B "foo"), Val := some (B "baz") }).2.1
      rfl rfl |>.2.1 _ (by rfl)⟩

/-! ## Lemmas: one request through the three tasks -/

theorem turn_decoded (E : Env) (ss : List Bytes) (rest : Bytes) (f : TransportErr)
    (r : Request) (hN : ss.length ≤ 10000000) (hL : ∀ s ∈ ss, s.length ≤ 1000000)
    (hi : Request.Parse.interpret E {} ss = (r, none)) :
    readRequests.turn E ⟨wireFrame ss ++ rest, f⟩ = (some r, ⟨rest, f⟩) := by
  simp [readRequests.turn, Parse_decoded E {} _ _ _ (parse_wireFrame ss rest f hN hL), hi]

theorem turn_set (E : Env) (k v rest : Bytes) (f : TransportErr)
    (hk : k.length ≤ 1000000) (hv : v.length ≤ 1000000) :
    readRequests.turn E ⟨wireFrame [B "SET", k, v, B "NX"] ++ rest, f⟩ =
      (some { Typ := RequestSet, Key := some k, Val := some v }, ⟨rest, f⟩) := by
  apply turn_decoded E _ rest f _ (by simp)
  · intro s hs
    simp only [List.mem_cons, List.mem_singleton, List.not_mem_nil, or_false] at hs
    rcases hs with h | h | h | h <;> subst h <;> first | assumption | decide
  · rw [interpret_set E {} (B "SET") k v [B "NX"] (by rfl)]
    rfl

theorem turn_get (E : Env) (k rest : Bytes) (f : TransportErr) (hk : k.length ≤ 1000000) :
    readRequests.turn E ⟨wireFrame [B "GET", k] ++ rest, f⟩ =
      (some { Typ := RequestGet, Key := some k }, ⟨rest, f⟩) := by
  apply turn_decoded E _ rest f _ (by simp)
  · intro s hs
    simp only [List.mem_cons, List.mem_singleton, List.not_mem_nil, or_false] at hs
    rcases hs with h | h <;> subst h <;> first | assumption | decide
  · rfl

theorem turn_ping (E : Env) (rest : Bytes) (f : TransportErr) :
    readRequests.turn E ⟨wireFrame [B "PING"] ++ rest, f⟩ =
      (some { Typ := RequestPing }, ⟨rest, f⟩) := by
  apply turn_decoded E _ rest f _ (by simp)
  · intro s hs
    simp only [List.mem_singleton] at hs
    subst hs
    decide
  · rfl

theorem serveOne_set_absent {σ : Type} (E : Env) (S : Storage σ) (k v rest : Bytes)
    (f : TransportErr) (db db' : σ) (out : Bytes)
    (hk : k.length ≤ 1000000) (hv : v.length ≤ 1000000)
    (hp : S.Put db (some k) (some v) = (none, db')) :
    serveOne E S ⟨setFrame k v ++ rest, f⟩ db ⟨out, none⟩ =
      some (⟨rest, f⟩, db', ⟨out ++ B "+OK\r\n", none⟩) := by
  unfold serveOne setFrame
  rw [turn_set E k v rest f hk hv]
  simp only [HandleConn.respond, hp]
  rfl

theorem serveOne_set_present {σ : Type} (E : Env) (S : Storage σ) (k v rest : Bytes)
    (f : TransportErr) (db db' : σ) (out : Bytes)
    (hk : k.length ≤ 1000000) (hv : v.length ≤ 1000000)
    (hp : S.Put db (some k) (some v) = (some .ErrKeyExist, db')) :
    serveOne E S ⟨setFrame k v ++ rest, f⟩ db ⟨out, none⟩ =
      some (⟨rest, f⟩, db', ⟨out ++ B "$-1\r\n", none⟩) := by
  unfold serveOne setFrame
  rw [turn_set E k v rest f hk hv]
  simp only [HandleConn.respond, hp]
  rfl

theorem serveOne_get_present {σ : Type} (E : Env) (S : Storage σ) (k v rest : Bytes)
    (f : TransportErr) (db db' : σ) (out : Bytes) (hk : k.length ≤ 1000000)
    (hg : S.Get db (some k) = ((some v, none), db')) :
    serveOne E S ⟨getFrame k ++ rest, f⟩ db ⟨out, none⟩ =
      some (⟨rest, f⟩, db',
        ⟨out ++ (B "$" ++ Itoa v.length ++ B "\r\n" ++ v ++ B "\r\n"), none⟩) := by
  unfold serveOne getFrame
  rw [turn_get E k rest f hk]
  have d : RequestGet ≠ RequestSet := by decide
  simp only [HandleConn.respond, hg, d, if_false, if_true]
  rfl

theorem serveOne_get_absent {σ : Type} (E : Env) (S : Storage σ) (k rest : Bytes)
    (f : TransportErr) (db db' : σ) (out : Bytes) (x : Option Bytes)
    (hk : k.length ≤ 1000000)
    (hg : S.Get db (some k) = ((x, some .ErrKeyNotExist), db')) :
    serveOne E S ⟨getFrame k ++ rest, f⟩ db ⟨out, none⟩ =
      some (⟨rest, f⟩, db', ⟨out ++ B "$-1\r\n", none⟩) := by
  unfold serveOne getFrame
  rw [turn_get E k rest f hk]
  have d : RequestGet ≠ RequestSet := by decide
  simp only [HandleConn.respond, hg, d, if_false, if_true]
  rfl

theorem serveOne_ping {σ : Type} (E : Env) (S : Storage σ) (rest : Bytes)
    (f : TransportErr) (db : σ) (out : Bytes) :
    serveOne E S ⟨pingFrame ++ rest, f⟩ db ⟨out, none⟩ =
      some (⟨rest, f⟩, db, ⟨out ++ B "+PONG\r\n", none⟩) := by
  unfold serveOne pingFrame
  rw [turn_ping E rest f]
  rfl

theorem memStorage_putIfAbsent :
    PutIfAbsent memStorage (fun db key => db.lookup key) where
  put_absent := by
    intro db key val h
    refine ⟨(key, val) :: db, ?_, ?_⟩
    · simp only [memStorage, Option.getD_some]
      rw [h]
    · simp [List.lookup]
  put_present := by
    intro db key val old h
    refine ⟨db, ?_, h⟩
    simp only [memStorage, Option.getD_some]
    rw [h]
  get_present := by
    intro db key val h
    refine ⟨db, ?_, h⟩
    simp only [memStorage, Option.getD_some]
    rw [h]
  get_absent := by
    intro db key h
    refine ⟨none, db, ?_⟩
    simp only [memStorage, Option.getD_some]
    rw [h]

/-! ## Theorems: end to end -/

/-- C10: the SET/GET/PING scenario end to end.  Against every storage engine that
behaves as put-if-absent and in which key `k` is absent at the start, for every key `k`
and value `v` within the size limits, every continuation `rest` of the stream and every
output `out` written before: decoding, processing and encoding the four frames
`SET k v NX`, `SET k v NX`, `GET k`, `PING`, one after the other from the same stream,
appends to the output exactly `+OK\r\n`, then `$-1\r\n`, then `$<len v>\r\n v \r\n`, then
`+PONG\r\n`, and leaves `rest` unread.  Also a `GET k` while `k` is absent appends
exactly `$-1\r\n`. -/
theorem C10_scenario {σ : Type} (E : Env) (S : Storage σ) (view : σ → Bytes → Option Bytes)
    (hS : PutIfAbsent S view) (db0 : σ) (k v rest : Bytes) (f : TransportErr) (out : Bytes)
    (hk : k.length ≤ 1000000) (hv : v.length ≤ 1000000) (h0 : view db0 k = none) :
    (∃ db1 db2 db3,
      serveOne E S ⟨setFrame k v ++ (setFrame k v ++ (getFrame k ++ (pingFrame ++ rest))), f⟩
          db0 ⟨out, none⟩ =
        some (⟨setFrame k v ++ (getFrame k ++ (pingFrame ++ rest)), f⟩, db1,
          ⟨out ++ B "+OK\r\n", none⟩) ∧
      serveOne E S ⟨setFrame k v ++ (getFrame k ++ (pingFrame ++ rest)), f⟩
          db1 ⟨out ++ B "+OK\r\n", none⟩ =
        some (⟨getFrame k ++ (pingFrame ++ rest), f⟩, db2,
          ⟨out ++ B "+OK\r\n" ++ B "$-1\r\n", none⟩) ∧
      serveOne E S ⟨getFrame k ++ (pingFrame ++ rest), f⟩
          db2 ⟨out ++ B "+OK\r\n" ++ B "$-1\r\n", none⟩ =
        some (⟨pingFrame ++ rest, f⟩, db3,
          ⟨out ++ B "+OK\r\n" ++ B "$-1\r\n" ++
            (B "$" ++ Itoa v.length ++ B "\r\n" ++ v ++ B "\r\n"), none⟩) ∧
      serveOne E S ⟨pingFrame ++ rest, f⟩
          db3 ⟨out ++ B "+OK\r\n" ++ B "$-1\r\n" ++
            (B "$" ++ Itoa v.length ++ B "\r\n" ++ v ++ B "\r\n"), none⟩ =
        some (⟨rest, f⟩, db3,
          ⟨out ++ B "+OK\r\n" ++ B "$-1\r\n" ++
            (B "$" ++ Itoa v.length ++ B "\r\n" ++ v ++ B "\r\n") ++ B "+PONG\r\n", none⟩)) ∧
    (∃ db', serveOne E S ⟨getFrame k ++ rest, f⟩ db0 ⟨out, none⟩ =
      some (⟨rest, f⟩, db', ⟨out ++ B "$-1\r\n", none⟩)) := by
  obtain ⟨db1, hp1, hv1⟩ := hS.put_absent db0 k v h0
  obtain ⟨db2, hp2, hv2⟩ := hS.put_present db1 k v v hv1
  obtain ⟨db3, hg3, _⟩ := hS.get_present db2 k v hv2
  obtain ⟨x, db', hg0⟩ := hS.get_absent db0 k h0
  refine ⟨⟨db1, db2, db3, ?_, ?_, ?_, ?_⟩, ⟨db', ?_⟩⟩
  · exact serveOne_set_absent E S k v _ f db0 db1 out hk hv hp1
  · exact serveOne_set_present E S k v _ f db1 db2 _ hk hv hp2
  · exact serveOne_get_present E S k v _ f db2 db3 _ hk hg3
  · exact serveOne_ping E S rest f db3 _
  · exact serveOne_get_absent E S k rest f db0 db' out x hk hg0

/-- Witness of C10: `k = foo`, `v = bar` against the in-memory store, starting empty;
the frames are those of the scenario, byte for byte, and the third reply is
`$3\r\nbar\r\n`. -/
theorem C10_scenario_witness :
    (B "foo").length ≤ 1000000 ∧ (B "bar").length ≤ 1000000 ∧
    List.lookup (B "foo") ([] : List (Bytes × Bytes)) = none ∧
    setFrame (B "foo") (B "bar") = B "*4\r\n$3\r\nSET\r\n$3\r\nfoo\r\n$3\r\nbar\r\n$2\r\nNX\r\n" ∧
    getFrame (B "foo") = B "*2\r\n$3\r\nGET\r\n$3\r\nfoo\r\n" ∧
    pingFrame = B "*1\r\n$4\r\nPING\r\n" ∧
    B "$" ++ Itoa (B "bar").length ++ B "\r\n" ++ B "bar" ++ B "\r\n" = B "$3\r\nbar\r\n" ∧
    (∃ db1 db2 db3,
      serveOne sampleEnv memStorage
          ⟨setFrame (B "foo") (B "bar") ++ (setFrame (B "foo") (B "bar") ++
            (getFrame (B "foo") ++ (pingFrame ++ []))), .eof⟩ [] ⟨[], none⟩ =
        some (⟨setFrame (B "foo") (B "bar") ++ (getFrame (B "foo") ++ (pingFrame ++ [])), .eof⟩,
          db1, ⟨[] ++ B "+OK\r\n", none⟩) ∧
      serveOne sampleEnv memStorage
          ⟨setFrame (B "foo") (B "bar") ++ (getFrame (B "foo") ++ (pingFrame ++ [])), .eof⟩
          db1 ⟨[] ++ B "+OK\r\n", none⟩ =
        some (⟨getFrame (B "foo") ++ (pingFrame ++ []), .eof⟩, db2,
          ⟨[] ++ B "+OK\r\n" ++ B "$-1\r\n", none⟩) ∧
      serveOne sampleEnv memStorage ⟨getFrame (B "foo") ++ (pingFrame ++ []), .eof⟩
          db2 ⟨[] ++ B "+OK\r\n" ++ B "$-1\r\n", none⟩ =
        some (⟨pingFrame ++ [], .eof⟩, db3,
          ⟨[] ++ B "+OK\r\n" ++ B "$-1\r\n" ++
            (B "$" ++ Itoa (B "bar").length ++ B "\r\n" ++ B "bar" ++ B "\r\n"), none⟩) ∧
      serveOne sampleEnv memStorage ⟨pingFrame ++ [], .eof⟩
          db3 ⟨[] ++ B "+OK\r\n" ++ B "$-1\r\n" ++
            (B "$" ++ Itoa (B "bar").length ++ B "\r\n" ++ B "bar" ++ B "\r\n"), none⟩ =
        some (⟨[], .eof⟩, db3,
          ⟨[] ++ B "+OK\r\n" ++ B "$-1\r\n" ++
            (B "$" ++ Itoa (B "bar").length ++ B "\r\n" ++ B "bar" ++ B "\r\n") ++
            B "+PONG\r\n", none⟩)) ∧
    (∃ db', serveOne sampleEnv memStorage ⟨getFrame (B "foo") ++ [], .eof⟩ [] ⟨[], none⟩ =
      some (⟨[], .eof⟩, db', ⟨[] ++ B "$-1\r\n", none⟩)) :=
  ⟨by decide, by decide, by rfl, by rfl, by rfl, by rfl, by rfl,
    C10_scenario sampleEnv memStorage (fun db key => db.lookup key) memStorage_putIfAbsent
      [] (B "foo") (B "bar") [] .eof [] (by decide) (by decide) (by rfl)⟩

/-! ## Lemmas: the processor loop -/

theorem repliesInOrder_snoc {σ : Type} (E : Env) (S : Storage σ) (db : σ)
    (rs : List Request) (r : Request) :
    repliesInOrder E S db (rs ++ [r]) =
      match repliesInOrder E S db rs with
      | none => none
      | some (out, db1) =>
        match HandleConn.respond E S db1 r with
        | (.reply resp, db') => some (out ++ [resp], db')
        | (_, _) => none := by
  simp [repliesInOrder, List.foldl_append]

theorem onRequest_some {σ : Type} (E : Env) (S : Storage σ) (p p' : Processor σ)
    (r : Request) (h : HandleConn.onRequest E S p r = some p') :
    ∃ resp, HandleConn.respond E S p.db r = (.reply resp, p'.db) ∧
      p'.responseQueue = p.responseQueue ++ [resp] := by
  unfold HandleConn.onRequest at h
  split at h
  · rename_i resp db hr
    simp only [Option.some.injEq] at h
    subst h
    exact ⟨resp, hr, rfl⟩
  · simp at h

theorem onAccept_some {σ : Type} (p p' : Processor σ) (resp : Response)
    (h : HandleConn.onAccept p = some (resp, p')) :
    p.responseQueue = resp :: p'.responseQueue ∧ p'.db = p.db := by
  unfold HandleConn.onAccept at h
  cases hq : p.responseQueue with
  | nil => simp [hq, when, head] at h
  | cons a t =>
    simp only [hq, when, head, List.length_cons, Nat.add_one_ne_zero, if_false,
      List.head?_cons, List.drop_succ_cons, List.drop_zero] at h
    simp only [gt_iff_lt, Nat.zero_lt_succ, decide_True, if_true, Option.some.injEq,
      Prod.mk.injEq] at h
    obtain ⟨h1, h2⟩ := h
    subst h1 h2
    exact ⟨rfl, rfl⟩

theorem onAccept_none {σ : Type} (p : Processor σ) :
    HandleConn.onAccept p = none ↔ p.responseQueue = [] := by
  unfold HandleConn.onAccept
  cases hq : p.responseQueue with
  | nil => simp [when, head]
  | cons a t => simp [when, head]

theorem step_OrderInv {σ : Type} (E : Env) (S : Storage σ) (db0 : σ) (s s' : ProcState σ)
    (ev : ProcEvent) (hi : OrderInv E S db0 s) (h : HandleConn.step E S s ev = some s') :
    OrderInv E S db0 s' := by
  unfold OrderInv at hi ⊢
  cases ev with
  | request r =>
    unfold HandleConn.step at h
    cases ho : HandleConn.onRequest E S s.proc r with
    | none => simp [ho] at h
    | some p =>
      simp only [ho, Option.some.injEq] at h
      subst h
      obtain ⟨resp, hr, hq⟩ := onRequest_some E S s.proc p r ho
      simp only [repliesInOrder_snoc, hi, hr, hq, List.append_assoc]
  | accept =>
    unfold HandleConn.step at h
    cases ho : HandleConn.onAccept s.proc with
    | none => simp [ho] at h
    | some x =>
      obtain ⟨resp, p⟩ := x
      simp only [ho, Option.some.injEq] at h
      subst h
      obtain ⟨hq, hdb⟩ := onAccept_some s.proc p resp ho
      simp only [hi, hq, hdb, List.append_assoc, List.singleton_append]

theorem step_arrived {σ : Type} (E : Env) (S : Storage σ) (s s' : ProcState σ)
    (ev : ProcEvent) (h : HandleConn.step E S s ev = some s') :
    s'.arrived = s.arrived ++ requestsOf [ev] := by
  cases ev with
  | request r =>
    unfold HandleConn.step at h
    cases ho : HandleConn.onRequest E S s.proc r with
    | none => simp [ho] at h
    | some p =>
      simp only [ho, Option.some.injEq] at h
      subst h
      simp [requestsOf]
  | accept =>
    unfold HandleConn.step at h
    cases ho : HandleConn.onAccept s.proc with
    | none => simp [ho] at h
    | some x =>
      simp only [ho, Option.some.injEq] at h
      subst h
      simp [requestsOf]

theorem requestsOf_cons (ev : ProcEvent) (evs : List ProcEvent) :
    requestsOf (ev :: evs) = requestsOf [ev] ++ requestsOf evs := by
  cases ev <;> simp [requestsOf]

theorem run_OrderInv {σ : Type} (E : Env) (S : Storage σ) (db0 : σ) (evs : List ProcEvent) :
    ∀ (s s' : ProcState σ), OrderInv E S db0 s → HandleConn.run E S evs s = some s' →
      OrderInv E S db0 s' ∧ s'.arrived = s.arrived ++ requestsOf evs := by
  induction evs with
  | nil =>
    intro s s' hi h
    simp only [HandleConn.run, Option.some.injEq] at h
    subst h
    exact ⟨hi, by simp [requestsOf]⟩
  | cons ev evs ih =>
    intro s s' hi h
    unfold HandleConn.run at h
    cases hs : HandleConn.step E S s ev with
    | none => simp [hs] at h
    | some s1 =>
      simp only [hs] at h
      obtain ⟨h1, h2⟩ := ih s1 s' (step_OrderInv E S db0 s s1 ev hi hs) h
      refine ⟨h1, ?_⟩
      rw [h2, step_arrived E S s s1 ev hs, requestsOf_cons ev evs, List.append_assoc]

/-! ## Theorems: the processor loop -/

/-- C11: pipelining order.  In the state machine of the processor loop, whose steps are
"a request arrives" (its response is appended at the tail of the queue) and "the writer
accepts" (enabled only on a non-empty queue; the head is handed over and removed): in
every state reached from the start by any interleaving `evs` of the two kinds of step,
the responses already handed to the writer followed by the queue are exactly the
responses computed for the requests received so far, in the order of their arrival; so
replies leave in the order in which their requests came in, none permuted, dropped or
duplicated. -/
theorem C11_fifo_order {σ : Type} (E : Env) (S : Storage σ) (db0 : σ)
    (evs : List ProcEvent) (s : ProcState σ)
    (h : HandleConn.run E S evs (HandleConn.start db0) = some s) :
    s.arrived = requestsOf evs ∧
    repliesInOrder E S db0 (requestsOf evs) =
      some (s.handed ++ s.proc.responseQueue, s.proc.db) ∧
    (∀ s0 : ProcState σ,
      HandleConn.step E S s0 .accept = none ↔ s0.proc.responseQueue = []) := by
  have hi : OrderInv E S db0 (HandleConn.start db0) := by
    simp [OrderInv, HandleConn.start, repliesInOrder]
  obtain ⟨h1, h2⟩ := run_OrderInv E S db0 evs _ s hi h
  have ha : s.arrived = requestsOf evs := by simpa [HandleConn.start] using h2
  refine ⟨ha, ?_, ?_⟩
  · rw [← ha]
    exact h1
  · intro s0
    unfold HandleConn.step
    cases ho : HandleConn.onAccept s0.proc with
    | none => simpa using (onAccept_none s0.proc).mp ho
    | some x =>
      have hne : s0.proc.responseQueue ≠ [] := fun hq => by
        rw [(onAccept_none s0.proc).mpr hq] at ho
        exact absurd ho (by simp)
      simp [hne]

/-- Witness of C11: `PING`, then `GET foo` on the empty store, then the writer accepts,
then `INFO`; the writer has the reply to `PING`, the other two wait in their order. -/
theorem C11_fifo_order_witness :
    HandleConn.run sampleEnv memStorage
        [.request { Typ := RequestPing }, .request { Typ := RequestGet, Key := some (B "foo") },
          .accept, .request { Typ := RequestInfo }]
        (HandleConn.start []) =
      some { proc := { db := [], responseQueue := [⟨RedisBulk, none⟩,
                ⟨RedisString, some (B "keys:0")⟩] },
             arrived := [{ Typ := RequestPing }, { Typ := RequestGet, Key := some (B "foo") },
                { Typ := RequestInfo }],
             handed := [⟨RedisString, some (B "PONG")⟩] } ∧
    repliesInOrder sampleEnv memStorage []
        (requestsOf [.request { Typ := RequestPing },
          .request { Typ := RequestGet, Key := some (B "foo") }, .accept,
          .request { Typ := RequestInfo }]) =
      some ([⟨RedisString, some (B "PONG")⟩] ++
        [⟨RedisBulk, none⟩, ⟨RedisString, some (B "keys:0")⟩], []) :=
  ⟨by rfl,
    (C11_fifo_order sampleEnv memStorage []
      [.request { Typ := RequestPing }, .request { Typ := RequestGet, Key := some (B "foo") },
        .accept, .request { Typ := RequestInfo }] _ (by rfl)).2.1⟩

/-! ## Lemmas: a request on a well-formed frame -/

theorem Parse_failed (E : Env) (r : Request) (br br' : Reader) (e : GoError)
    (h : parseRedisArrayBulkString br = (.error e, br')) :
    Request.Parse E r br = ((r, some e), br') := by
  simp [Request.Parse, h]

theorem Parse_wireFrame (E : Env) (r : Request) (ss : List Bytes) (rest : Bytes)
    (f : TransportErr) (hN : ss.length ≤ 10000000) (hL : ∀ s ∈ ss, s.length ≤ 1000000) :
    Request.Parse E r ⟨wireFrame ss ++ rest, f⟩ =
      (Request.Parse.interpret E r ss, ⟨rest, f⟩) :=
  Parse_decoded E r _ _ _ (parse_wireFrame ss rest f hN hL)

/-- The errors of the interpreter are the validation errors. -/
theorem interpret_error (E : Env) (r : Request) (a : List Bytes) (e : GoError)
    (h : (Request.Parse.interpret E r a).2 = some e) :
    e = .ErrMalformedRequest ∨ e = .ErrUnrecognizedCommand ∨ e = .ErrWrongNumArgs ∨
    e = .ErrSetXXUnupported ∨ e = .ErrSetNXRequired ∨
    e = .expiryWithoutValue (B "EX") ∨ e = .expiryWithoutValue (B "PX") := by
  unfold Request.Parse.interpret at h
  split at h
  · simp only [Option.some.injEq] at h
    exact Or.inl h.symm
  · simp only at h
    split at h
    · split at h
      · simp only [Option.some.injEq] at h
        exact Or.inr (Or.inr (Or.inl h.symm))
      · split at h
        · rename_i err ho
          simp only [Option.some.injEq] at h
          subst h
          rcases options_error E _ _ _ _ (le_refl _) ho with h | h | h
          · exact Or.inr (Or.inr (Or.inr (Or.inl h)))
          · exact Or.inr (Or.inr (Or.inr (Or.inr (Or.inr (Or.inl h)))))
          · exact Or.inr (Or.inr (Or.inr (Or.inr (Or.inr (Or.inr h)))))
        · split at h
          · simp only [Option.some.injEq] at h
            exact Or.inr (Or.inr (Or.inr (Or.inr (Or.inl h.symm))))
          · simp at h
    · split at h
      · split at h
        · simp only [Option.some.injEq] at h
          exact Or.inr (Or.inr (Or.inl h.symm))
        · simp at h
      · split at h
        · split at h
          · simp only [Option.some.injEq] at h
            exact Or.inr (Or.inr (Or.inl h.symm))
          · simp at h
        · split at h
          · split at h
            · simp only [Option.some.injEq] at h
              exact Or.inr (Or.inr (Or.inl h.symm))
            · simp at h
          · simp only [Option.some.injEq] at h
            exact Or.inr (Or.inl h.symm)

/-! ## Theorems: errors and the stream -/

/-- C12, as stated, fails: the request `*1\r\n$5\r\nPING\r\n` declares five bytes and
gives four; `Request.Parse` takes the `\r` into the element and returns a decode error
(not a transport error) after it has read the `*` of the well-formed frame of `PING`
that follows.  Parsing on from there returns an error again instead of the request. -/
theorem C12_counterexample :
    B "*1\r\n$5\r\nPING\r\n" ++ wireFrame [B "PING"] = B "*1\r\n$5\r\nPING\r\n*1\r\n$4\r\nPING\r\n" ∧
    Request.Parse sampleEnv {} ⟨B "*1\r\n$5\r\nPING\r\n" ++ wireFrame [B "PING"], .eof⟩ =
      (({}, some (.expected (B "\r\n") (B "\n*"))), ⟨B "1\r\n$4\r\nPING\r\n", .eof⟩) ∧
    GoError.isNetError (.expected (B "\r\n") (B "\n*")) = false ∧
    Request.Parse sampleEnv {} ⟨B "1\r\n$4\r\nPING\r\n", .eof⟩ =
      (({}, some (.expected (B "*") (B "1"))), ⟨B "\r\n$4\r\nPING\r\n", .eof⟩) := by
  refine ⟨by rfl, ?_, by rfl, ?_⟩
  · exact Parse_failed sampleEnv {} _ _ _ (by rfl)
  · exact Parse_failed sampleEnv {} _ _ _ (by rfl)

/-- C12, amended: for every byte stream made of one well-formed request frame on which
`Request.Parse` returns an error (on a well-formed frame this is a validation error),
immediately followed by a well-formed request frame, the failed parse stops exactly at
the start of the following frame, and parsing on from there decodes the following
request as on a fresh stream: the decoder returns its elements, and `Request.Parse`
gives what the interpreter makes of them. -/
theorem C12_recovery (E : Env) (ss1 ss2 : List Bytes) (rest : Bytes) (f : TransportErr)
    (e : GoError)
    (hN1 : ss1.length ≤ 10000000) (hL1 : ∀ s ∈ ss1, s.length ≤ 1000000)
    (hN2 : ss2.length ≤ 10000000) (hL2 : ∀ s ∈ ss2, s.length ≤ 1000000)
    (he : (Request.Parse E {} ⟨wireFrame ss1 ++ (wireFrame ss2 ++ rest), f⟩).1.2 = some e) :
    e.isNetError = false ∧
    (Request.Parse E {} ⟨wireFrame ss1 ++ (wireFrame ss2 ++ rest), f⟩).2 =
      ⟨wireFrame ss2 ++ rest, f⟩ ∧
    parseRedisArrayBulkString
        (Request.Parse E {} ⟨wireFrame ss1 ++ (wireFrame ss2 ++ rest), f⟩).2 =
      (.ok ss2, ⟨rest, f⟩) ∧
    Request.Parse E {}
        (Request.Parse E {} ⟨wireFrame ss1 ++ (wireFrame ss2 ++ rest), f⟩).2 =
      (Request.Parse.interpret E {} ss2, ⟨rest, f⟩) := by
  rw [Parse_wireFrame E {} ss1 _ f hN1 hL1] at he ⊢
  refine ⟨?_, rfl, parse_wireFrame ss2 rest f hN2 hL2, Parse_wireFrame E {} ss2 rest f hN2 hL2⟩
  rcases interpret_error E {} ss1 e he with h | h | h | h | h | h | h <;> rw [h] <;> rfl

/-- Witness of C12 amended: `SET foo bar`, refused for the missing `NX`, followed by
`PING`, which is then decoded and accepted. -/
theorem C12_recovery_witness :
    (Request.Parse sampleEnv {}
        ⟨wireFrame [B "SET", B "foo", B "bar"] ++ (wireFrame [B "PING"] ++ []), .eof⟩).1.2 =
      some .ErrSetNXRequired ∧
    Request.Parse sampleEnv {}
        (Request.Parse sampleEnv {}
          ⟨wireFrame [B "SET", B "foo", B "bar"] ++ (wireFrame [B "PING"] ++ []), .eof⟩).2 =
      (Request.Parse.interpret sampleEnv {} [B "PING"], ⟨[], .eof⟩) ∧
    Request.Parse.interpret sampleEnv {} [B "PING"] = ({ Typ := RequestPing }, none) := by
  have he : (Request.Parse sampleEnv {}
      ⟨wireFrame [B "SET", B "foo", B "bar"] ++ (wireFrame [B "PING"] ++ []), .eof⟩).1.2 =
      some .ErrSetNXRequired := by
    rw [Parse_wireFrame sampleEnv {} _ _ _ (by decide) (by decide)]
    rfl
  exact ⟨he,
    (C12_recovery sampleEnv [B "SET", B "foo", B "bar"] [B "PING"] [] .eof _
      (by decide) (by decide) (by decide) (by decide) he).2.2.2, by rfl⟩

/-- C13 on the code: the request `SET foo bar`, refused for the missing `NX`, reaches
the processor with `Err` set and with `Typ`, `Key` and `Val` set as well, since
`Request.Parse` assigns them before it looks at the options. -/
theorem C13_failing_input :
    readRequests.turn sampleEnv ⟨B "*3\r\n$3\r\nSET\r\n$3\r\nfoo\r\n$3\r\nbar\r\n", .eof⟩ =
      (some { Typ := RequestSet, Key := some (B "foo"), Val := some (B "bar"),
              Err := some .ErrSetNXRequired }, ⟨[], .eof⟩) ∧
    ({ Typ := RequestSet, Key := some (B "foo"), Val := some (B "bar"),
       Err := some .ErrSetNXRequired } : Request) ≠ { Err := some .ErrSetNXRequired } := by
  have h := Parse_wireFrame sampleEnv {} [B "SET", B "foo", B "bar"] [] .eof (by decide)
    (by decide)
  have e : wireFrame [B "SET", B "foo", B "bar"] ++ [] =
      B "*3\r\n$3\r\nSET\r\n$3\r\nfoo\r\n$3\r\nbar\r\n" := by rfl
  rw [e] at h
  refine ⟨?_, by decide⟩
  unfold readRequests.turn
  rw [h]
  rfl

/-- C19: a validation error leaves the stream at a frame boundary.  For every
well-formed frame within the size limits and every trailing byte sequence `rest`, if
`Request.Parse` on the frame followed by `rest` returns an error, the error is one of
the validation errors (empty array, unrecognized command, wrong number of arguments, XX
not supported, NX required, expiry parameter without a value), `Parse` has consumed
exactly the bytes of the frame, and exactly `rest` is left unread, so the next `Parse`
starts at the next frame. -/
theorem C19_frame_boundary (E : Env) (r : Request) (ss : List Bytes) (rest : Bytes)
    (f : TransportErr) (e : GoError)
    (hN : ss.length ≤ 10000000) (hL : ∀ s ∈ ss, s.length ≤ 1000000)
    (he : (Request.Parse E r ⟨wireFrame ss ++ rest, f⟩).1.2 = some e) :
    (Request.Parse E r ⟨wireFrame ss ++ rest, f⟩).2 = ⟨rest, f⟩ ∧
    (e = .ErrMalformedRequest ∨ e = .ErrUnrecognizedCommand ∨ e = .ErrWrongNumArgs ∨
      e = .ErrSetXXUnupported ∨ e = .ErrSetNXRequired ∨
      e = .expiryWithoutValue (B "EX") ∨ e = .expiryWithoutValue (B "PX")) := by
  rw [Parse_wireFrame E r ss rest f hN hL] at he ⊢
  exact ⟨rfl, interpret_error E r ss e he⟩

/-- Witness of C19: the empty array `*0\r\n` followed by the frame of `PING`. -/
theorem C19_frame_boundary_witness :
    wireFrame [] ++ B "*1\r\n$4\r\nPING\r\n" = B "*0\r\n*1\r\n$4\r\nPING\r\n" ∧
    (Request.Parse sampleEnv {} ⟨wireFrame [] ++ B "*1\r\n$4\r\nPING\r\n", .eof⟩).1.2 =
      some .ErrMalformedRequest ∧
    (Request.Parse sampleEnv {} ⟨wireFrame [] ++ B "*1\r\n$4\r\nPING\r\n", .eof⟩).2 =
      ⟨B "*1\r\n$4\r\nPING\r\n", .eof⟩ := by
  have he : (Request.Parse sampleEnv {}
      ⟨wireFrame [] ++ B "*1\r\n$4\r\nPING\r\n", .eof⟩).1.2 = some .ErrMalformedRequest := by
    rw [Parse_wireFrame sampleEnv {} _ _ _ (by decide) (by simp)]
    rfl
  exact ⟨by rfl, he,
    (C19_frame_boundary sampleEnv {} [] (B "*1\r\n$4\r\nPING\r\n") .eof _ (by decide)
      (by simp) he).1⟩

/-! ## Lemmas: a success does not depend on what follows -/

theorem ReadFull_extend (br br' : Reader) (n : Nat) (b t : Bytes)
    (h : ReadFull br n = (.ok b, br')) :
    ReadFull ⟨br.unread ++ t, br.fin⟩ n = (.ok b, ⟨br'.unread ++ t, br'.fin⟩) := by
  unfold ReadFull at h ⊢
  split at h
  · rename_i hn
    simp only [Prod.mk.injEq, Except.ok.injEq] at h
    obtain ⟨h1, h2⟩ := h
    subst h1 h2
    have hn' : n ≤ (br.unread ++ t).length := by
      rw [List.length_append]
      omega
    simp only [hn', if_true, List.take_append_of_le_length hn,
      List.drop_append_of_le_length hn]
  · simp at h

theorem expectString_extend (br br' : Reader) (s t : Bytes)
    (h : expectString br s = (none, br')) :
    expectString ⟨br.unread ++ t, br.fin⟩ s = (none, ⟨br'.unread ++ t, br'.fin⟩) := by
  unfold expectString at h ⊢
  split at h
  · simp at h
  · rename_i b br1 hr
    rw [ReadFull_extend br br1 _ b t hr]
    split at h
    · simp at h
    · rename_i hb
      simp only [Prod.mk.injEq, true_and] at h
      subst h
      simp only [hb, if_false]

theorem expectCRLF_extend (br br' : Reader) (t : Bytes) (h : expectCRLF br = (none, br')) :
    expectCRLF ⟨br.unread ++ t, br.fin⟩ = (none, ⟨br'.unread ++ t, br'.fin⟩) :=
  expectString_extend br br' _ t h

theorem span_extend (l t : Bytes) (x d : Byte) (line rest : Bytes)
    (h : l.span (fun b => b != x) = (line, d :: rest)) :
    (l ++ t).span (fun b => b != x) = (line, d :: (rest ++ t)) := by
  rw [List.span_eq_take_drop] at h ⊢
  simp only [Prod.mk.injEq] at h
  obtain ⟨h1, h2⟩ := h
  induction l generalizing line with
  | nil => simp [List.dropWhile] at h2
  | cons c cs ih =>
    by_cases hc : (c != x) = true
    · simp only [List.takeWhile, List.dropWhile, hc] at h1 h2
      cases line with
      | nil => simp at h1
      | cons a line' =>
        simp only [List.cons.injEq] at h1
        have ih' := ih line' h1.2 h2
        simp only [Prod.mk.injEq] at ih'
        simp only [List.cons_append, List.takeWhile, List.dropWhile, hc]
        exact Prod.ext (by simp [h1.1, ih'.1]) ih'.2
    · have hc' : (c != x) = false := by simpa using hc
      simp only [List.takeWhile, List.dropWhile, hc'] at h1 h2
      simp only [List.cons.injEq] at h2
      simp only [List.cons_append, List.takeWhile, List.dropWhile, hc']
      exact Prod.ext h1 (by simp [h2.1, h2.2])

theorem ReadBytes_span_nil (br : Reader) (x : Byte) (line : Bytes)
    (hs : br.unread.span (fun b => b != x) = (line, [])) :
    ReadBytes br x = ((line, some br.fin.atStart), ⟨[], br.fin⟩) := by
  unfold ReadBytes
  rw [hs]

theorem ReadBytes_span_cons (br : Reader) (x d : Byte) (line rest : Bytes)
    (hs : br.unread.span (fun b => b != x) = (line, d :: rest)) :
    ReadBytes br x = ((line ++ [d], none), ⟨rest, br.fin⟩) := by
  unfold ReadBytes
  rw [hs]

theorem expectDecimal_extend (br br' : Reader) (n : Int) (t : Bytes)
    (h : expectDecimal br = (.ok n, br')) :
    expectDecimal ⟨br.unread ++ t, br.fin⟩ = (.ok n, ⟨br'.unread ++ t, br'.fin⟩) := by
  unfold expectDecimal at h ⊢
  cases hs : br.unread.span (fun b => b != 13) with
  | mk line post =>
    cases post with
    | nil =>
      rw [ReadBytes_span_nil br 13 line hs] at h
      simp at h
    | cons d rest =>
      rw [ReadBytes_span_cons br 13 d line rest hs] at h
      rw [ReadBytes_span_cons ⟨br.unread ++ t, br.fin⟩ 13 d line (rest ++ t)
        (span_extend br.unread t 13 d line rest hs)]
      simp only [UnreadByte, List.getLast?_append, List.getLast?_singleton,
        List.dropLast_concat] at h ⊢
      cases ha : Atoi line with
      | none => simp [ha] at h
      | some m =>
        simp only [ha, Option.or_some, Prod.mk.injEq, Except.ok.injEq] at h ⊢
        obtain ⟨h1, h2⟩ := h
        subst h2
        exact ⟨h1, by simp⟩

theorem loop_extend (n : Nat) :
    ∀ (acc : List Bytes) (br br' : Reader) (ss : List Bytes) (t : Bytes),
      parseRedisArrayBulkString.loop n acc br = (.ok ss, br') →
      parseRedisArrayBulkString.loop n acc ⟨br.unread ++ t, br.fin⟩ =
        (.ok ss, ⟨br'.unread ++ t, br'.fin⟩) := by
  induction n with
  | zero =>
    intro acc br br' ss t h
    simp only [parseRedisArrayBulkString.loop, Prod.mk.injEq, Except.ok.injEq] at h ⊢
    obtain ⟨h1, h2⟩ := h
    subst h1 h2
    exact ⟨rfl, rfl⟩
  | succ k ih =>
    intro acc br br' ss t h
    unfold parseRedisArrayBulkString.loop at h ⊢
    split at h
    · simp at h
    · rename_i br1 h1
      rw [expectString_extend br br1 _ t h1]
      simp only
      split at h
      · simp at h
      · rename_i size br2 h2
        rw [expectDecimal_extend br1 br2 size t h2]
        simp only
        split at h
        · simp at h
        · rename_i br3 h3
          rw [expectCRLF_extend br2 br3 t h3]
          simp only
          split at h
          · simp at h
          · rename_i hsz
            simp only [hsz, if_false]
            split at h
            · simp at h
            · rename_i b br4 h4
              rw [ReadFull_extend br3 br4 _ b t h4]
              simp only
              split at h
              · simp at h
              · rename_i br5 h5
                rw [expectCRLF_extend br4 br5 t h5]
                exact ih _ _ _ _ _ h

theorem parse_extend (br br' : Reader) (ss : List Bytes) (t : Bytes)
    (h : parseRedisArrayBulkString br = (.ok ss, br')) :
    parseRedisArrayBulkString ⟨br.unread ++ t, br.fin⟩ =
      (.ok ss, ⟨br'.unread ++ t, br'.fin⟩) := by
  unfold parseRedisArrayBulkString at h ⊢
  split at h
  · simp at h
  · rename_i br1 h1
    rw [expectString_extend br br1 _ t h1]
    simp only
    split at h
    · simp at h
    · rename_i count br2 h2
      rw [expectDecimal_extend br1 br2 count t h2]
      simp only
      split at h
      · simp at h
      · rename_i br3 h3
        rw [expectCRLF_extend br2 br3 t h3]
        simp only
        split at h
        · simp at h
        · rename_i hc
          simp only [hc, if_false]
          exact loop_extend _ _ _ _ _ _ h

/-! ## Theorems: short reads -/

/-- C14: a short read is a decode failure.  For every well-formed request frame within
the size limits and every strict prefix `p` of it, the empty one included (the frame is
`p ++ t` with `t` not empty), and whatever the transport reports at the end of the
input, `parseRedisArrayBulkString` on an input that ends after `p` returns an error and
no strings, never an array. -/
theorem C14_short_read (ss : List Bytes) (p t : Bytes) (f : TransportErr)
    (hN : ss.length ≤ 10000000) (hL : ∀ s ∈ ss, s.length ≤ 1000000)
    (hp : wireFrame ss = p ++ t) (ht : t ≠ []) :
    ∃ e br', parseRedisArrayBulkString ⟨p, f⟩ = (.error e, br') := by
  cases hr : parseRedisArrayBulkString ⟨p, f⟩ with
  | mk res br' =>
    cases res with
    | error e => exact ⟨e, br', rfl⟩
    | ok ss' =>
      exfalso
      have h1 := parse_extend ⟨p, f⟩ br' ss' t hr
      have h2 := parse_wireFrame ss [] f hN hL
      rw [List.append_nil, hp] at h2
      rw [h2] at h1
      simp only [Prod.mk.injEq, Reader.mk.injEq] at h1
      have h3 : br'.unread ++ t = [] := h1.2.1.symm
      exact ht (List.append_eq_nil.mp h3).2

/-- Witness of C14: the frame of `GET foo` cut inside its last element. -/
theorem C14_short_read_witness :
    wireFrame [B "GET", B "foo"] = B "*2\r\n$3\r\nGET\r\n$3\r\nfo" ++ B "o\r\n" ∧
    B "o\r\n" ≠ [] ∧
    (∃ e br', parseRedisArrayBulkString ⟨B "*2\r\n$3\r\nGET\r\n$3\r\nfo", .eof⟩ =
      (.error e, br')) ∧
    parseRedisArrayBulkString ⟨B "*2\r\n$3\r\nGET\r\n$3\r\nfo", .eof⟩ =
      (.error .ErrUnexpectedEOF, ⟨[], .eof⟩) :=
  ⟨by rfl, by decide,
    C14_short_read [B "GET", B "foo"] (B "*2\r\n$3\r\nGET\r\n$3\r\nfo") (B "o\r\n") .eof
      (by decide) (by decide) (by rfl) (by decide), by rfl⟩

/-! ## Lemmas: `Atoi` and decimal literals -/

theorem parseDigits_eq (ds : Bytes) :
    ∀ acc : Nat, parseDigits ds acc =
      if ds.all (fun c => decide (48 ≤ c ∧ c ≤ 57)) = true then
        some (ds.foldl (fun a c => 10 * a + (c.toNat - 48)) acc)
      else none := by
  induction ds with
  | nil => intro acc; simp [parseDigits]
  | cons c cs ih =>
    intro acc
    by_cases hc : 48 ≤ c ∧ c ≤ 57
    · have hd : isDigit c = true := by simp [isDigit, hc.1, hc.2]
      simp only [parseDigits, hd, if_true, ih, List.all_cons, hc, and_self, decide_True,
        Bool.true_and, List.foldl_cons, Nat.mul_comm acc 10]
    · have hd : isDigit c = false := by
        simp only [isDigit, Bool.and_eq_false_iff, decide_eq_false_iff_not]
        by_cases h1 : 48 ≤ c
        · exact Or.inr (fun h2 => hc ⟨h1, h2⟩)
        · exact Or.inl h1
      simp [parseDigits, hd, hc]

theorem Atoi_digits (s : Bytes) :
    (if s.head? = some 45 ∨ s.head? = some 43 then s.tail else s) = literalDigits s := by
  cases s with
  | nil => simp [literalDigits]
  | cons c t =>
    simp only [List.head?_cons, Option.some.injEq, List.tail_cons, literalDigits]
    by_cases h1 : c = 45
    · simp [h1]
    · by_cases h2 : c = 43
      · simp [h2]
      · simp [h1, h2]

/-- `Atoi` accepts exactly the base-10 integer literals whose value is in the range of
`int`, and returns the value. -/
theorem Atoi_literal (d : Bytes) :
    Atoi d =
      if isLiteral d = true ∧ minInt ≤ literalValue d ∧ literalValue d ≤ maxInt then
        some (literalValue d)
      else none := by
  unfold Atoi
  simp only [Atoi_digits, parseDigits_eq]
  by_cases he : literalDigits d = []
  · simp [he, isLiteral]
  · by_cases ha : (literalDigits d).all (fun c => decide (48 ≤ c ∧ c ≤ 57)) = true
    · have hl : isLiteral d = true := by
        simp only [isLiteral, Bool.and_eq_true, Bool.not_eq_true', List.isEmpty_eq_false]
        exact ⟨he, ha⟩
      simp only [he, if_false, ha, if_true, hl, true_and]
      rfl
    · have hl : ¬ (isLiteral d = true) := by
        simp only [isLiteral, Bool.and_eq_true, not_and]
        intro _
        exact ha
      simp only [he, if_false, ha, hl, false_and]
      rfl

/-! ## Theorems: decimal parsing -/

/-- C16: decimal parsing stops before the line terminator.  For every input `d`, then
`\r`, then `rest`, where `d` holds no `\r`: if `d` is a base-10 integer literal whose
value is in the range of `int`, `expectDecimal` returns that value and consumes exactly
the bytes of `d`, so that the next unread byte is the `\r`, which together with the `\n`
is left to the caller's `expectCRLF`; and if `d` is not such a literal (empty, with a
byte that is no digit, or out of range), `expectDecimal` returns an error. -/
theorem C16_decimal (d rest : Bytes) (f : TransportErr) (hcr : ∀ c ∈ d, c ≠ 13) :
    (isLiteral d = true → minInt ≤ literalValue d → literalValue d ≤ maxInt →
      expectDecimal ⟨d ++ 13 :: rest, f⟩ = (.ok (literalValue d), ⟨13 :: rest, f⟩)) ∧
    (¬ (isLiteral d = true ∧ minInt ≤ literalValue d ∧ literalValue d ≤ maxInt) →
      expectDecimal ⟨d ++ 13 :: rest, f⟩ = (.error (.badNumber d), ⟨13 :: rest, f⟩)) ∧
    (∀ rest' : Bytes, expectCRLF ⟨13 :: 10 :: rest', f⟩ = (none, ⟨rest', f⟩)) := by
  refine ⟨?_, ?_, fun rest' => expectCRLF_cons rest' f⟩
  · intro h1 h2 h3
    rw [expectDecimal_line d rest f hcr, Atoi_literal, if_pos ⟨h1, h2, h3⟩]
  · intro h
    rw [expectDecimal_line d rest f hcr, Atoi_literal, if_neg h]

/-- Witness of C16: the literal `-42` in front of `\r\n$3`, and the text `4x2`, which is
no literal. -/
theorem C16_decimal_witness :
    (∀ c ∈ B "-42", c ≠ 13) ∧ isLiteral (B "-42") = true ∧ literalValue (B "-42") = -42 ∧
    expectDecimal ⟨B "-42" ++ 13 :: B "\n$3", .eof⟩ = (.ok (-42), ⟨13 :: B "\n$3", .eof⟩) ∧
    isLiteral (B "4x2") = false ∧
    expectDecimal ⟨B "4x2" ++ 13 :: B "\n$3", .eof⟩ =
      (.error (.badNumber (B "4x2")), ⟨13 :: B "\n$3", .eof⟩) :=
  ⟨by decide, by rfl, by rfl,
    (C16_decimal (B "-42") (B "\n$3") .eof (by decide)).1 (by rfl) (by decide) (by decide),
    by rfl,
    (C16_decimal (B "4x2") (B "\n$3") .eof (by decide)).2.1 (by decide)⟩

/-! ## Lemmas: the types of requests and responses -/

theorem interpret_ok_type (E : Env) (r r' : Request) (a : List Bytes)
    (h : Request.Parse.interpret E r a = (r', none)) :
    r'.Typ = RequestSet ∨ r'.Typ = RequestGet ∨ r'.Typ = RequestPing ∨
      r'.Typ = RequestInfo := by
  unfold Request.Parse.interpret at h
  split at h
  · simp at h
  · simp only at h
    split at h
    · split at h
      · simp at h
      · split at h
        · simp at h
        · split at h
          · simp at h
          · simp only [Prod.mk.injEq, and_true] at h
            subst h
            exact Or.inl rfl
    · split at h
      · split at h
        · simp at h
        · simp only [Prod.mk.injEq, and_true] at h
          subst h
          exact Or.inr (Or.inl rfl)
      · split at h
        · split at h
          · simp at h
          · simp only [Prod.mk.injEq, and_true] at h
            subst h
            exact Or.inr (Or.inr (Or.inl rfl))
        · split at h
          · split at h
            · simp at h
            · simp only [Prod.mk.injEq, and_true] at h
              subst h
              exact Or.inr (Or.inr (Or.inr rfl))
          · simp at h

theorem Parse_ok_type (E : Env) (r r' : Request) (br br' : Reader)
    (h : Request.Parse E r br = ((r', none), br')) :
    r'.Typ = RequestSet ∨ r'.Typ = RequestGet ∨ r'.Typ = RequestPing ∨
      r'.Typ = RequestInfo := by
  unfold Request.Parse at h
  split at h
  · simp at h
  · rename_i array br1 _
    simp only [Prod.mk.injEq] at h
    exact interpret_ok_type E r r' array h.1

theorem respond_no_panic {σ : Type} (E : Env) (S : Storage σ) (db : σ) (r : Request)
    (h : r.Err ≠ none ∨ r.Typ = RequestSet ∨ r.Typ = RequestGet ∨ r.Typ = RequestPing ∨
      r.Typ = RequestInfo) :
    (HandleConn.respond E S db r).1 ≠ .panic := by
  unfold HandleConn.respond
  cases he : r.Err with
  | some err => simp
  | none =>
    have h' : r.Typ = RequestSet ∨ r.Typ = RequestGet ∨ r.Typ = RequestPing ∨
        r.Typ = RequestInfo := by
      rcases h with h | h
      · exact absurd he h
      · exact h
    simp only
    split
    · split
      · simp
      · split
        · simp
        · split <;> simp
    · split
      · split
        · simp
        · split <;> simp
      · split
        · simp
        · split
          · simp
          · rename_i h1 h2 h3 h4
            rcases h' with h | h | h | h
            · exact absurd h h1
            · exact absurd h h2
            · exact absurd h h3
            · exact absurd h h4

theorem respond_reply_type {σ : Type} (E : Env) (S : Storage σ) (db db' : σ) (r : Request)
    (resp : Response) (h : HandleConn.respond E S db r = (.reply resp, db')) :
    resp.Typ = RedisErr ∨ resp.Typ = RedisString ∨ resp.Typ = RedisBulk := by
  unfold HandleConn.respond at h
  split at h
  · simp only [Prod.mk.injEq, Outcome.reply.injEq] at h
    rw [← h.1]
    exact Or.inl rfl
  · simp only at h
    split at h
    · split at h
      · simp only [Prod.mk.injEq, Outcome.reply.injEq] at h
        rw [← h.1]
        exact Or.inr (Or.inl rfl)
      · split at h
        · simp only [Prod.mk.injEq, Outcome.reply.injEq] at h
          rw [← h.1]
          exact Or.inr (Or.inr rfl)
        · split at h
          · simp at h
          · simp only [Prod.mk.injEq, Outcome.reply.injEq] at h
            rw [← h.1]
            exact Or.inl rfl
    · split at h
      · split at h
        · simp only [Prod.mk.injEq, Outcome.reply.injEq] at h
          rw [← h.1]
          exact Or.inr (Or.inr rfl)
        · split at h
          · simp only [Prod.mk.injEq, Outcome.reply.injEq] at h
            rw [← h.1]
            exact Or.inr (Or.inr rfl)
          · simp only [Prod.mk.injEq, Outcome.reply.injEq] at h
            rw [← h.1]
            exact Or.inl rfl
      · split at h
        · simp only [Prod.mk.injEq, Outcome.reply.injEq] at h
          rw [← h.1]
          exact Or.inr (Or.inl rfl)
        · split at h
          · simp only [Prod.mk.injEq, Outcome.reply.injEq] at h
            rw [← h.1]
            exact Or.inr (Or.inl rfl)
          · simp at h

theorem Write_no_panic (resp : Response) (w : Writer)
    (h : resp.Typ = RedisErr ∨ resp.Typ = RedisString ∨ resp.Typ = RedisBulk) :
    resp.Write w ≠ none := by
  unfold Response.Write Response.Write.msg
  rcases h with h | h | h
  · simp [h]
  · have d : RedisString ≠ RedisErr := by decide
    simp [h, d]
  · have d1 : RedisBulk ≠ RedisErr := by decide
    have d2 : RedisBulk ≠ RedisString := by decide
    cases hm : resp.Msg <;> simp [h, d1, d2]

theorem turn_handed (E : Env) (br br' : Reader) (r : Request)
    (h : readRequests.turn E br = (some r, br')) :
    r.Err ≠ none ∨ r.Typ = RequestSet ∨ r.Typ = RequestGet ∨ r.Typ = RequestPing ∨
      r.Typ = RequestInfo := by
  unfold readRequests.turn at h
  split at h
  · split at h
    · simp at h
    · simp only [Prod.mk.injEq, Option.some.injEq] at h
      rw [← h.1]
      exact Or.inl (by simp)
  · rename_i r0 br1 hp
    simp only [Prod.mk.injEq, Option.some.injEq] at h
    rw [← h.1]
    exact Or.inr (Parse_ok_type E {} r0 br br1 hp)

/-! ## Theorems: the programming-error branches -/

/-- C17: the programming-error branches are unreachable.  Every request for which
`Request.Parse` returns no error has its type among `RequestSet`, `RequestGet`,
`RequestPing`, `RequestInfo`; for every request that the reader hands over, with or
without an error, the processor does not reach `panic("unexpected request type")`; and
every response that the processor appends to the queue, those built by
`ResponseFromError` included, has its type among `RedisErr`, `RedisString`, `RedisBulk`,
so that `Response.Write` does not reach `panic("unexpected response type")` on it. -/
theorem C17_no_panic {σ : Type} (E : Env) (S : Storage σ) :
    (∀ (r r' : Request) (br br' : Reader), Request.Parse E r br = ((r', none), br') →
      r'.Typ = RequestSet ∨ r'.Typ = RequestGet ∨ r'.Typ = RequestPing ∨
        r'.Typ = RequestInfo) ∧
    (∀ (br br' : Reader) (r : Request) (db : σ), readRequests.turn E br = (some r, br') →
      (HandleConn.respond E S db r).1 ≠ .panic) ∧
    (∀ (db db' : σ) (r : Request) (resp : Response),
      HandleConn.respond E S db r = (.reply resp, db') →
      (resp.Typ = RedisErr ∨ resp.Typ = RedisString ∨ resp.Typ = RedisBulk) ∧
        ∀ w : Writer, resp.Write w ≠ none) ∧
    (∀ err : GoError, (ResponseFromError E err).Typ = RedisErr) := by
  refine ⟨?_, ?_, ?_, fun _ => rfl⟩
  · intro r r' br br' h
    exact Parse_ok_type E r r' br br' h
  · intro br br' r db h
    exact respond_no_panic E S db r (turn_handed E br br' r h)
  · intro db db' r resp h
    have ht := respond_reply_type E S db db' r resp h
    exact ⟨ht, fun w => Write_no_panic resp w ht⟩

/-- Witness of C17: the request `FOO`, handed over with its error, is answered and the
answer is written. -/
theorem C17_no_panic_witness :
    readRequests.turn sampleEnv ⟨wireFrame [B "FOO"] ++ [], .eof⟩ =
      (some { Err := some .ErrUnrecognizedCommand }, ⟨[], .eof⟩) ∧
    (HandleConn.respond sampleEnv memStorage [] { Err := some .ErrUnrecognizedCommand }).1 ≠
      .panic ∧
    HandleConn.respond sampleEnv memStorage [] { Err := some .ErrUnrecognizedCommand } =
      (.reply ⟨RedisErr, some (B "unrecognized command")⟩, []) ∧
    (∀ w : Writer, Response.Write ⟨RedisErr, some (B "unrecognized command")⟩ w ≠ none) := by
  have ht : readRequests.turn sampleEnv ⟨wireFrame [B "FOO"] ++ [], .eof⟩ =
      (some { Err := some .ErrUnrecognizedCommand }, ⟨[], .eof⟩) := by
    unfold readRequests.turn
    rw [Parse_wireFrame sampleEnv {} _ _ _ (by decide) (by decide)]
    rfl
  exact ⟨ht, (C17_no_panic sampleEnv memStorage).2.1 _ _ _ [] ht, by rfl,
    ((C17_no_panic sampleEnv memStorage).2.2.1 [] [] { Err := some .ErrUnrecognizedCommand }
      ⟨RedisErr, some (B "unrecognized command")⟩ (by rfl)).2⟩

/-! ## Lemmas: the signals of one connection -/

theorem step_SignalInv {σ : Type} (E : Env) (S : Storage σ) (s s' : ConnState σ)
    (ev : ConnEvent) (hi : SignalInv s) (h : ConnState.step E S s ev = some s') :
    SignalInv s' := by
  unfold ConnState.step at h
  unfold SignalInv at hi ⊢
  obtain ⟨hr, hw⟩ := hi
  split at h
  · simp at h
  · cases ev with
    | parse =>
      simp only at h
      split at h
      · rename_i hrd
        have h0 : s.readErrCloses = 0 := by
          rcases hr with hr | hr
          · exact hr
          · rw [hrd] at hr
            exact absurd hr.2 (by simp)
        split at h
        · simp only [Option.some.injEq] at h
          subst h
          simp [h0, hw]
        · simp only [Option.some.injEq] at h
          subst h
          simp [h0, hw]
      · simp at h
    | handoff =>
      simp only at h
      split at h
      · rename_i r hrd
        have h0 : s.readErrCloses = 0 := by
          rcases hr with hr | hr
          · exact hr
          · rw [hrd] at hr
            exact absurd hr.2 (by simp)
        split at h
        · split at h
          · simp only [Option.some.injEq] at h
            subst h
            simp [h0, hw]
          · simp only [Option.some.injEq] at h
            subst h
            simp [h0, hw]
        · simp at h
      · simp at h
    | check =>
      simp only at h
      split at h
      · rename_i hrd
        have h0 : s.readErrCloses = 0 := by
          rcases hr with hr | hr
          · exact hr
          · rw [hrd] at hr
            exact absurd hr.2 (by simp)
        simp only [Option.some.injEq] at h
        subst h
        simp [h0, hw]
      · simp at h
    | deliver =>
      simp only at h
      split at h
      · rename_i hwr
        have h0 : s.writeErrCloses = 0 := by
          rcases hw with hw | hw
          · exact hw
          · rw [hwr] at hw
            exact absurd hw.2 (by simp)
        split at h
        · split at h
          · simp only [Option.some.injEq] at h
            subst h
            simp [h0, hr]
          · simp at h
        · simp at h
      · simp at h
    | write =>
      simp only at h
      split at h
      · rename_i resp hwr
        have h0 : s.writeErrCloses = 0 := by
          rcases hw with hw | hw
          · exact hw
          · rw [hwr] at hw
            exact absurd hw.2 (by simp)
        split at h
        · simp only [Option.some.injEq] at h
          subst h
          simp [h0, hr]
        · simp only [Option.some.injEq] at h
          subst h
          simp [h0, hr]
        · simp only [Option.some.injEq] at h
          subst h
          simp [h0, hr]
      · simp at h
    | writerSeesReadErr =>
      simp only at h
      split at h
      · rename_i hwr
        have h0 : s.writeErrCloses = 0 := by
          rcases hw with hw | hw
          · exact hw
          · rw [hwr] at hw
            exact absurd hw.2 (by simp)
        split at h
        · simp only [Option.some.injEq] at h
          subst h
          simp [h0, hr]
        · simp at h
      · simp at h
    | procSeesReadErr =>
      simp only at h
      split at h
      · simp only [Option.some.injEq] at h
        subst h
        exact ⟨hr, hw⟩
      · simp at h
    | procSeesWriteErr =>
      simp only at h
      split at h
      · simp only [Option.some.injEq] at h
        subst h
        exact ⟨hr, hw⟩
      · simp at h
    | transport br broken =>
      simp only [Option.some.injEq] at h
      subst h
      exact ⟨hr, hw⟩

theorem run_SignalInv {σ : Type} (E : Env) (S : Storage σ) (evs : List ConnEvent) :
    ∀ (s s' : ConnState σ), SignalInv s → ConnState.run E S evs s = some s' →
      SignalInv s' := by
  induction evs with
  | nil =>
    intro s s' hi h
    simp only [ConnState.run, Option.some.injEq] at h
    subst h
    exact hi
  | cons ev evs ih =>
    intro s s' hi h
    unfold ConnState.run at h
    cases hs : ConnState.step E S s ev with
    | none => simp [hs] at h
    | some s1 =>
      simp only [hs] at h
      exact ih s1 s' (step_SignalInv E S s s1 ev hi hs) h

/-- Who closes what: a step leaves the count of closes of `readErr` as it is, unless it
is the reader's parse step, which then returns; the same for `writeErr` and the
writer's write step. -/
theorem step_closes {σ : Type} (E : Env) (S : Storage σ) (s s' : ConnState σ)
    (ev : ConnEvent) (h : ConnState.step E S s ev = some s') :
    (s'.readErrCloses = s.readErrCloses ∨
      (ev = .parse ∧ s'.readErrCloses = s.readErrCloses + 1 ∧ s'.reader = .returned)) ∧
    (s'.writeErrCloses = s.writeErrCloses ∨
      (ev = .write ∧ s'.writeErrCloses = s.writeErrCloses + 1 ∧ s'.writer = .returned)) := by
  unfold ConnState.step at h
  split at h
  · simp at h
  · cases ev with
    | parse =>
      simp only at h
      split at h
      · split at h
        · simp only [Option.some.injEq] at h
          subst h
          simp
        · simp only [Option.some.injEq] at h
          subst h
          simp
      · simp at h
    | handoff =>
      simp only at h
      split at h
      · split at h
        · split at h
          · simp only [Option.some.injEq] at h
            subst h
            simp
          · simp only [Option.some.injEq] at h
            subst h
            simp
        · simp at h
      · simp at h
    | check =>
      simp only at h
      split at h
      · simp only [Option.some.injEq] at h
        subst h
        simp
      · simp at h
    | deliver =>
      simp only at h
      split at h
      · split at h
        · split at h
          · simp only [Option.some.injEq] at h
            subst h
            simp
          · simp at h
        · simp at h
      · simp at h
    | write =>
      simp only at h
      split at h
      · split at h
        · simp only [Option.some.injEq] at h
          subst h
          simp
        · simp only [Option.some.injEq] at h
          subst h
          simp
        · simp only [Option.some.injEq] at h
          subst h
          simp
      · simp at h
    | writerSeesReadErr =>
      simp only at h
      split at h
      · split at h
        · simp only [Option.some.injEq] at h
          subst h
          simp
        · simp at h
      · simp at h
    | procSeesReadErr =>
      simp only at h
      split at h
      · simp only [Option.some.injEq] at h
        subst h
        simp
      · simp at h
    | procSeesWriteErr =>
      simp only at h
      split at h
      · simp only [Option.some.injEq] at h
        subst h
        simp
      · simp at h
    | transport br broken =>
      simp only [Option.some.injEq] at h
      subst h
      simp

/-! ## Theorems: the signals of one connection -/

/-- C18: the cancellation signals are set at most once.  In the step model of one
connection's reader, processor and writer, in every state reached from the start of
`HandleConn` by any interleaving of steps, `readErr` has been closed at most once and
`writeErr` at most once; when `readErr` has been closed the reader has returned, when
`writeErr` has been closed the writer has returned.  Only the reader's parse step closes
`readErr` and only the writer's write step closes `writeErr`, each returning at once;
no step of the processor closes either; and no step undoes a close. -/
theorem C18_signals_once {σ : Type} (E : Env) (S : Storage σ) (br : Reader) (db : σ)
    (w : Writer) (evs : List ConnEvent) (s : ConnState σ)
    (h : ConnState.run E S evs (HandleConn.init br db w) = some s) :
    s.readErrCloses ≤ 1 ∧ s.writeErrCloses ≤ 1 ∧
    (s.readErrCloses = 1 → s.reader = .returned) ∧
    (s.writeErrCloses = 1 → s.writer = .returned) ∧
    (∀ (s0 s1 : ConnState σ) (ev : ConnEvent), ConnState.step E S s0 ev = some s1 →
      (s1.readErrCloses = s0.readErrCloses ∨
        (ev = .parse ∧ s1.readErrCloses = s0.readErrCloses + 1 ∧ s1.reader = .returned)) ∧
      (s1.writeErrCloses = s0.writeErrCloses ∨
        (ev = .write ∧ s1.writeErrCloses = s0.writeErrCloses + 1 ∧ s1.writer = .returned)) ∧
      s0.readErrCloses ≤ s1.readErrCloses ∧ s0.writeErrCloses ≤ s1.writeErrCloses) := by
  have hi : SignalInv (HandleConn.init br db w) := by
    simp [SignalInv, HandleConn.init]
  obtain ⟨hr, hw⟩ := run_SignalInv E S evs _ s hi h
  refine ⟨?_, ?_, ?_, ?_, ?_⟩
  · rcases hr with hr | hr <;> omega
  · rcases hw with hw | hw <;> omega
  · intro h1
    rcases hr with hr | hr
    · omega
    · exact hr.2
  · intro h1
    rcases hw with hw | hw
    · omega
    · exact hw.2
  · intro s0 s1 ev hs
    obtain ⟨h1, h2⟩ := step_closes E S s0 s1 ev hs
    refine ⟨h1, h2, ?_, ?_⟩
    · rcases h1 with h1 | h1 <;> omega
    · rcases h2 with h2 | h2 <;> omega

/-- Witness of C18: `PING` arrives and is answered, then the transport fails for reads
and writes alike; the reader closes `readErr` and returns, the writer and the processor
see it and stop. -/
theorem C18_signals_once_witness :
    (ConnState.run sampleEnv memStorage
        [.parse, .handoff, .check, .deliver, .write, .transport ⟨[], .net (B "reset")⟩ none,
          .parse, .writerSeesReadErr, .procSeesReadErr]
        (HandleConn.init ⟨B "*1\r\n$4\r\nPING\r\n", .eof⟩ [] ⟨[], none⟩)).map
      (fun s => (s.reader, s.writer, s.looping, s.w.written, s.readErrCloses,
        s.writeErrCloses)) =
      some (.returned, .returned, false, B "+PONG\r\n", 1, 0) ∧
    (∃ s, ConnState.run sampleEnv memStorage
        [.parse, .handoff, .check, .deliver, .write, .transport ⟨[], .net (B "reset")⟩ none,
          .parse, .writerSeesReadErr, .procSeesReadErr]
        (HandleConn.init ⟨B "*1\r\n$4\r\nPING\r\n", .eof⟩ [] ⟨[], none⟩) = some s ∧
      s.readErrCloses ≤ 1 ∧ s.writeErrCloses ≤ 1) := by
  have hm : (ConnState.run sampleEnv memStorage
      [.parse, .handoff, .check, .deliver, .write, .transport ⟨[], .net (B "reset")⟩ none,
        .parse, .writerSeesReadErr, .procSeesReadErr]
      (HandleConn.init ⟨B "*1\r\n$4\r\nPING\r\n", .eof⟩ [] ⟨[], none⟩)).map
      (fun s => (s.reader, s.writer, s.looping, s.w.written, s.readErrCloses,
        s.writeErrCloses)) =
      some (.returned, .returned, false, B "+PONG\r\n", 1, 0) := by rfl
  refine ⟨hm, ?_⟩
  cases hs : ConnState.run sampleEnv memStorage
      [.parse, .handoff, .check, .deliver, .write, .transport ⟨[], .net (B "reset")⟩ none,
        .parse, .writerSeesReadErr, .procSeesReadErr]
      (HandleConn.init ⟨B "*1\r\n$4\r\nPING\r\n", .eof⟩ [] ⟨[], none⟩) with
  | none =>
    rw [hs] at hm
    exact absurd hm (by simp)
  | some s =>
    have h := C18_signals_once sampleEnv memStorage ⟨B "*1\r\n$4\r\nPING\r\n", .eof⟩ []
      ⟨[], none⟩ _ s hs
    exact ⟨s, rfl, h.1, h.2.1⟩

/-! ## Theorems: the end of the stream -/

/-- C15 on the code: at the end of the stream the read fails with `io.EOF` (or, in the
middle of a frame, `io.ErrUnexpectedEOF`), which is no `net.Error`; the reader does not
close `readErr` and does not return, it hands a request that carries the error to the
processor, which answers it with an error reply.  Only on an error of the transport
itself does the reader close `readErr` and return without a request. -/
theorem C15_failing_input :
    readRequests.turn sampleEnv ⟨[], .eof⟩ = (some { Err := some .EOF }, ⟨[], .eof⟩) ∧
    readRequests.turn sampleEnv ⟨B "*1\r\n$4\r\nPI", .eof⟩ =
      (some { Err := some .ErrUnexpectedEOF }, ⟨[], .eof⟩) ∧
    (ConnState.run sampleEnv memStorage [.parse, .handoff, .check, .deliver, .write, .parse]
        (HandleConn.init ⟨[], .eof⟩ [] ⟨[], none⟩)).map
      (fun s => (s.reader, s.readErrCloses, s.w.written)) =
      some (.sending { Err := some .EOF }, 0, B "-EOF\r\n") ∧
    readRequests.turn sampleEnv ⟨[], .net (B "reset")⟩ = (none, ⟨[], .net (B "reset")⟩) := by
  refine ⟨by rfl, by rfl, by rfl, by rfl⟩
/-! ## Lemmas: an expiry option without a value -/

theorem options_dangling (E : Env) :
    ∀ (opts : List Bytes) (nx : Bool), dangling E opts = true →
      (∀ t ∈ scanned E opts, ToUpper E t ≠ B "XX") →
      ∃ p, opts.getLast? = some p ∧ isExpiry E p ∧
        Request.Parse.options E opts nx = .error (.expiryWithoutValue (ToUpper E p))
  | [], _, hd, _ => by simp [dangling] at hd
  | [p], nx, hd, _ => by
    have hx : isExpiry E p := by simpa [dangling] using hd
    have hx' : ToUpper E p = B "EX" ∨ ToUpper E p = B "PX" := hx
    exact ⟨p, rfl, hx, by simp [Request.Parse.options, hx']⟩
  | p :: q :: rest, nx, hd, h => by
    unfold Request.Parse.options
    by_cases hx : isExpiry E p
    · have hx' : ToUpper E p = B "EX" ∨ ToUpper E p = B "PX" := hx
      have hd' : dangling E rest = true := by simpa [dangling, hx] using hd
      have h' : ∀ t ∈ scanned E rest, ToUpper E t ≠ B "XX" := fun t ht =>
        h t (by simp [scanned, hx, ht])
      obtain ⟨l, hl, hxl, ho⟩ := options_dangling E rest nx hd' h'
      refine ⟨l, ?_, hxl, ?_⟩
      · cases rest with
        | nil => simp at hl
        | cons a r =>
          rw [List.getLast?_cons_cons, List.getLast?_cons_cons]
          exact hl
      · simp only [hx', if_true]
        exact ho
    · have hx' : ¬ (ToUpper E p = B "EX" ∨ ToUpper E p = B "PX") := hx
      have hd' : dangling E (q :: rest) = true := by simpa [dangling, hx] using hd
      have h' : ∀ t ∈ scanned E (q :: rest), ToUpper E t ≠ B "XX" := fun t ht =>
        h t (by simp [scanned, hx, ht])
      have hxx : ToUpper E p ≠ B "XX" := h p (by simp [scanned, hx])
      simp only [hx', hxx, if_false]
      by_cases hnx : ToUpper E p = B "NX"
      · obtain ⟨l, hl, hxl, ho⟩ := options_dangling E (q :: rest) true hd' h'
        exact ⟨l, by rw [List.getLast?_cons_cons]; exact hl, hxl, by simp only [hnx, if_true]; exact ho⟩
      · obtain ⟨l, hl, hxl, ho⟩ := options_dangling E (q :: rest) nx hd' h'
        exact ⟨l, by rw [List.getLast?_cons_cons]; exact hl, hxl, by simp only [hnx, if_false]; exact ho⟩

/-! ## Theorems: an expiry option without a value -/

/-- C20: an expiry option without a value.  For every request whose decoded array is
`c :: k :: v :: opts` with `c` equal to SET up to letter case, if the left-to-right scan
of `opts` meets no `XX` token and ends on an `EX` or `PX` token (up to letter case) that
is the last element of the array, then `Request.Parse` fails with the error whose text
is "expiry parameter ", the token in upper case, " provided without a value", also when
an `NX` token came earlier; it returns neither success nor `ErrSetNXRequired`. -/
theorem C20_expiry_without_value (E : Env) (r : Request) (br br' : Reader) (c k v : Bytes)
    (opts : List Bytes)
    (h : parseRedisArrayBulkString br = (.ok (c :: k :: v :: opts), br'))
    (hS : ToUpper E c = B "SET")
    (hD : dangling E opts = true)
    (hXX : ∀ t ∈ scanned E opts, ToUpper E t ≠ B "XX") :
    ∃ p, (c :: k :: v :: opts).getLast? = some p ∧
      (ToUpper E p = B "EX" ∨ ToUpper E p = B "PX") ∧
      (Request.Parse E r br).1.2 = some (.expiryWithoutValue (ToUpper E p)) ∧
      (GoError.expiryWithoutValue (ToUpper E p)).Error E =
        B "expiry parameter " ++ ToUpper E p ++ B " provided without a value" ∧
      (Request.Parse E r br).1.2 ≠ none ∧
      (Request.Parse E r br).1.2 ≠ some .ErrSetNXRequired := by
  obtain ⟨p, hl, hx, ho⟩ := options_dangling E opts false hD hXX
  have he : (Request.Parse E r br).1.2 = some (.expiryWithoutValue (ToUpper E p)) := by
    rw [Parse_decoded E r br br' _ h, interpret_set E r c k v opts hS, ho]
  refine ⟨p, ?_, hx, he, rfl, ?_, ?_⟩
  · cases opts with
    | nil => simp at hl
    | cons a t =>
      rw [List.getLast?_cons_cons, List.getLast?_cons_cons, List.getLast?_cons_cons]
      exact hl
  · rw [he]
    simp
  · rw [he]
    simp

/-- Witness of C20: `SET foo bar NX ex`. -/
theorem C20_expiry_without_value_witness :
    parseRedisArrayBulkString ⟨wireFrame [B "SET", B "foo", B "bar", B "NX", B "ex"], .eof⟩ =
      (.ok (B "SET" :: B "foo" :: B "bar" :: [B "NX", B "ex"]), ⟨[], .eof⟩) ∧
    dangling sampleEnv [B "NX", B "ex"] = true ∧
    (∃ p, (B "SET" :: B "foo" :: B "bar" :: [B "NX", B "ex"]).getLast? = some p ∧
      (ToUpper sampleEnv p = B "EX" ∨ ToUpper sampleEnv p = B "PX") ∧
      (Request.Parse sampleEnv {}
          ⟨wireFrame [B "SET", B "foo", B "bar", B "NX", B "ex"], .eof⟩).1.2 =
        some (.expiryWithoutValue (ToUpper sampleEnv p)) ∧
      (GoError.expiryWithoutValue (ToUpper sampleEnv p)).Error sampleEnv =
        B "expiry parameter " ++ ToUpper sampleEnv p ++ B " provided without a value" ∧
      (Request.Parse sampleEnv {}
          ⟨wireFrame [B "SET", B "foo", B "bar", B "NX", B "ex"], .eof⟩).1.2 ≠ none ∧
      (Request.Parse sampleEnv {}
          ⟨wireFrame [B "SET", B "foo", B "bar", B "NX", B "ex"], .eof⟩).1.2 ≠
        some .ErrSetNXRequired) ∧
    B "expiry parameter " ++ ToUpper sampleEnv (B "ex") ++ B " provided without a value" =
      B "expiry parameter EX provided without a value" :=
  ⟨by rfl, by decide,
    C20_expiry_without_value sampleEnv {} _ ⟨[], .eof⟩ (B "SET") (B "foo") (B "bar")
      [B "NX", B "ex"] (by rfl) (by rfl) (by decide) (by decide),
    by rfl⟩

end KVCache
